import Mathlib

/-!
# advance-utils: the label-filtered resource cache of package k8s_lister

A shallow embedding of `k8s_lister/lister.go`: the cache `k8sLister`, its
mutations `add`, `update`, `delete`, its queries `get`, `list`, and the three
event handlers that `bind` installs on the informer; and of the registry
`K8sListerGroup` of `k8s_lister/lister_group.go`.

Modelling decisions.

* `sync.Map` is a finite map with pairwise distinct keys (`AList`); its
  methods `Load`, `Store`, `LoadOrStore`, `LoadAndDelete`, `Delete`, `Range`
  are given below with the behaviour documented for the Go type.  `Range`
  promises no order, so nothing here depends on the order of the entries.
* An object `*T` is a record with the two fields the cache reads
  (`Name`, `Labels`) and a `Payload` standing for every other field.
* The type parameter `T` is always instantiated, by `createLister`, with the
  type that the tag `kl.t` names, so the type assertions in
  `getResourceName` and `getResourceLabels` succeed; a tag that is none of
  the three constants takes the fall-through `return ""` / `return nil`.
* A callback slot holds either `nil` or a function; the functions are
  external, so a slot is `Option Handler` and every mutation returns, next
  to the new cache, the list of callback invocations it made, in order.
* `cnt` is a Go `int`; it is an unbounded `Int` here (it moves by one per
  mutation, so the 64-bit bound is out of reach).
* `labels.Set.AsSelector().Matches` is library code: it is a parameter
  `Matches selector labelsOfObject` of everything that filters.
* Calls are sequential: the informer delivers events one at a time.  What it
  hands to a handler is an `interface{}` value (`Delivered`): a `*T`, or a
  value of another type such as the tombstone
  `cache.DeletedFinalStateUnknown`, on which the unchecked assertions of the
  handlers panic (`Except.error`).  `RawEvent` and `handle` are the events
  that deliver objects and what the handlers do on them.
* A Go map of the registry is `nil` until it is made; a write to a nil map
  panics.
-/

namespace k8s_lister

/-- The string type `K8sResourceType`. -/
abbrev K8sResourceType := String

def ResourceNode : K8sResourceType := "node"
def ResourcePod : K8sResourceType := "pod"
def ResourceDeployment : K8sResourceType := "deployment"

namespace labels

/-- The type `labels.Set`, a `map[string]string`. -/
abbrev Set := List (String × String)

end labels

/-- The object behind a `*T`: `ObjectMeta.Name`, `ObjectMeta.Labels`, and the
rest of the resource. -/
structure Object where
  Name : String
  Labels : labels.Set
  Payload : Nat
deriving DecidableEq, Repr

/-- The state of a `sync.Map` holding `map[string]*T`. -/
abbrev SyncMap := AList (fun _ : String => Object)

namespace SyncMap

/-- `Load(key)`: the value stored under `key`, if any. -/
def Load (m : SyncMap) (key : String) : Option Object :=
  AList.lookup key m

/-- `Store(key, value)`: sets the value for `key`. -/
def Store (m : SyncMap) (key : String) (value : Object) : SyncMap :=
  AList.insert key value m

/-- `Delete(key)`: deletes the value for `key`. -/
def Delete (m : SyncMap) (key : String) : SyncMap :=
  AList.erase key m

/-- `LoadOrStore(key, value)`: the existing value and `loaded = true` if
`key` is present; otherwise stores `value` and returns it with
`loaded = false`. -/
def LoadOrStore (m : SyncMap) (key : String) (value : Object) : SyncMap × Object × Bool :=
  match AList.lookup key m with
  | some actual => (m, actual, true)
  | none => (AList.insert key value m, value, false)

/-- `LoadAndDelete(key)`: deletes the value for `key`, returning the previous
value if any and whether the key was present. -/
def LoadAndDelete (m : SyncMap) (key : String) : SyncMap × Option Object × Bool :=
  match AList.lookup key m with
  | some value => (AList.erase key m, some value, true)
  | none => (m, none, false)

/-- `Range(f)` with an `f` that collects every value and returns `true`. -/
def RangeValues (m : SyncMap) : List Object :=
  m.entries.map (fun e => e.2)

/-- The number of entries of the map. -/
def size (m : SyncMap) : Nat :=
  m.entries.length

end SyncMap

/-- A non-nil Go function value, known only by its identity. -/
abbrev Handler := Nat

/-- One callback invocation: the slot that was called and its arguments. -/
inductive Call where
  | onAdd (obj : Object)
  | onUpdate (oldObj newObj : Object)
  | onDelete (obj : Object)
  | onCntChanged (cnt : Int)
deriving DecidableEq, Repr

/-- The struct `k8sLister[T]` (the `informer` field is the external event
source and carries no cache state). -/
structure k8sLister where
  t : K8sResourceType
  m : SyncMap
  cnt : Int
  labels : labels.Set
  onAdd : Option Handler
  onUpdate : Option Handler
  onDelete : Option Handler
  onCntChanged : Option Handler

/-- The guarded call `if kl.onX != nil { kl.onX(args) }`. -/
def invoke (slot : Option Handler) (c : Call) : List Call :=
  match slot with
  | some _ => [c]
  | none => []

/-- `newK8sLister`: the zero value with `t` and `labels` set. -/
def newK8sLister (resourceType : K8sResourceType) (ls : labels.Set) : k8sLister :=
  { t := resourceType, m := ∅, cnt := 0, labels := ls,
    onAdd := none, onUpdate := none, onDelete := none, onCntChanged := none }

/-- `getResourceName`: the object's name for the three resource types, `""`
for any other tag. -/
def getResourceName (kl : k8sLister) (obj : Object) : String :=
  if kl.t = ResourceNode then obj.Name
  else if kl.t = ResourcePod then obj.Name
  else if kl.t = ResourceDeployment then obj.Name
  else ""

/-- `getResourceLabels`: the object's labels for the three resource types,
`nil` for any other tag. -/
def getResourceLabels (kl : k8sLister) (obj : Object) : labels.Set :=
  if kl.t = ResourceNode then obj.Labels
  else if kl.t = ResourcePod then obj.Labels
  else if kl.t = ResourceDeployment then obj.Labels
  else []

/-- `add`. -/
def add (kl : k8sLister) (obj : Object) : k8sLister × List Call :=
  let name := getResourceName kl obj
  match SyncMap.LoadOrStore kl.m name obj with
  | (m1, oldObj, true) =>
    ({ kl with m := m1 }, invoke kl.onUpdate (Call.onUpdate oldObj obj))
  | (m1, _, false) =>
    let kl1 := { kl with m := m1, cnt := kl.cnt + 1 }
    (kl1, invoke kl.onAdd (Call.onAdd obj) ++ invoke kl.onCntChanged (Call.onCntChanged kl1.cnt))

/-- `update`. -/
def update (kl : k8sLister) (oldObj newObj : Object) : k8sLister × List Call :=
  let name := getResourceName kl newObj
  let m1 := SyncMap.Delete kl.m (getResourceName kl oldObj)
  let m2 := SyncMap.Store m1 name newObj
  ({ kl with m := m2 }, invoke kl.onUpdate (Call.onUpdate oldObj newObj))

/-- `delete`. -/
def delete (kl : k8sLister) (obj : Object) : k8sLister × List Call :=
  let name := getResourceName kl obj
  match SyncMap.LoadAndDelete kl.m name with
  | (m1, _, true) =>
    let kl1 := { kl with m := m1, cnt := kl.cnt - 1 }
    (kl1, invoke kl.onDelete (Call.onDelete obj) ++ invoke kl.onCntChanged (Call.onCntChanged kl1.cnt))
  | (m1, _, false) => ({ kl with m := m1 }, [])

/-- `get`: `(obj, true)` is `some obj`, `(nil, false)` is `none`. -/
def get (kl : k8sLister) (name : String) : Option Object :=
  SyncMap.Load kl.m name

/-- `list`. -/
def list (kl : k8sLister) : List Object :=
  SyncMap.RangeValues kl.m

/-- The run-time panic of a failed type assertion. -/
def panicInterfaceConversion : String := "interface conversion"

/-- The run-time panic of a method call on a nil interface or pointer. -/
def panicNilDereference : String := "invalid memory address or nil pointer dereference"

/-- The three types that instantiate the type parameter `T`: `corev1.Node`,
`corev1.Pod`, `appsv1.Deployment`. -/
inductive TypeArg where
  | Node
  | Pod
  | Deployment
deriving DecidableEq, Repr

/-- `initInformer`: the informer of the factory that the lister takes for
its tag, that of pods, of deployments or of nodes; for any other tag no case
of the switch applies and the field `informer` stays nil.  The tag is set
once, by `newK8sLister`, which calls `initInformer` at once, so the field is
this function of the tag. -/
def initInformer (t : K8sResourceType) : Option TypeArg :=
  if t = ResourcePod then some TypeArg.Pod
  else if t = ResourceDeployment then some TypeArg.Deployment
  else if t = ResourceNode then some TypeArg.Node
  else none

/-- `bind`: hands the three handlers to `kl.informer.AddEventHandler`; on a
nil informer that call panics.  (The error the informer itself may return is
external; on `Except.ok` the handlers are installed.) -/
def bind (kl : k8sLister) : Except String Unit :=
  match initInformer kl.t with
  | some _ => Except.ok ()
  | none => Except.error panicNilDereference

/-- A value of type `interface{}` that the informer hands to a handler: a
pointer `*T` to an object, or a value of another dynamic type, of which
client-go passes one to `OnDelete`, the tombstone
`cache.DeletedFinalStateUnknown` with its key and last known object. -/
inductive Delivered where
  | object (obj : Object)
  | tombstone (key : String) (obj : Object)
deriving DecidableEq, Repr

/-- `getResourceLabels` at a delivered value: each case of the switch
asserts the type that the tag names, which is `*T`; the fall-through returns
nil without an assertion. -/
def getResourceLabelsOf (kl : k8sLister) (v : Delivered) : Except String labels.Set :=
  if kl.t = ResourceNode ∨ kl.t = ResourcePod ∨ kl.t = ResourceDeployment then
    match v with
    | Delivered.object obj => Except.ok obj.Labels
    | Delivered.tombstone _ _ => Except.error panicInterfaceConversion
  else Except.ok []

section Filter

variable (Matches : labels.Set → labels.Set → Bool)

/-- `filterResource`: `kl.labels.AsSelector().Matches(kl.getResourceLabels(obj))`. -/
def filterResource (kl : k8sLister) (obj : Object) : Bool :=
  Matches kl.labels (getResourceLabels kl obj)

/-- The `AddFunc` that `bind` installs, from `obj2T := obj.(*T)` on: its
body at a value that is a `*T`. -/
def AddFuncOn (kl : k8sLister) (obj : Object) : k8sLister × List Call :=
  if filterResource Matches kl obj then add kl obj else (kl, [])

/-- The `UpdateFunc` that `bind` installs, from its two assertions
`oldObj.(*T)`, `newObj.(*T)` on: its body at two values that are `*T`. -/
def UpdateFuncOn (kl : k8sLister) (oldObj newObj : Object) : k8sLister × List Call :=
  let oldOk := filterResource Matches kl oldObj
  let newOk := filterResource Matches kl newObj
  if oldOk && newOk then update kl oldObj newObj
  else if oldOk then delete kl oldObj
  else if newOk then add kl newObj
  else (kl, [])

/-- The `DeleteFunc` that `bind` installs, at a value that is a `*T` (the
assertions in `getResourceLabels` and `obj.(*T)` succeed). -/
def DeleteFuncOn (kl : k8sLister) (obj : Object) : k8sLister × List Call :=
  let newLabels := getResourceLabels kl obj
  if Matches kl.labels newLabels then delete kl obj else (kl, [])

/-- A raw event of the informer. -/
inductive RawEvent where
  | add (obj : Object)
  | update (oldObj newObj : Object)
  | delete (obj : Object)
deriving DecidableEq, Repr

/-- The handler that `bind` installed, at one raw event that delivers
objects of type `*T`. -/
def handle (kl : k8sLister) : RawEvent → k8sLister × List Call
  | RawEvent.add obj => AddFuncOn Matches kl obj
  | RawEvent.update oldObj newObj => UpdateFuncOn Matches kl oldObj newObj
  | RawEvent.delete obj => DeleteFuncOn Matches kl obj

/-- The `AddFunc` that `bind` installs, as the informer calls it: the
assertion `obj.(*T)` panics on a value that is no `*T`. -/
def AddFunc (kl : k8sLister) (obj : Delivered) : Except String (k8sLister × List Call) :=
  match obj with
  | Delivered.object obj2T => Except.ok (AddFuncOn Matches kl obj2T)
  | Delivered.tombstone _ _ => Except.error panicInterfaceConversion

/-- The `UpdateFunc` that `bind` installs, as the informer calls it. -/
def UpdateFunc (kl : k8sLister) (oldObj newObj : Delivered) :
    Except String (k8sLister × List Call) :=
  match oldObj, newObj with
  | Delivered.object oldObj2T, Delivered.object newObj2T =>
    Except.ok (UpdateFuncOn Matches kl oldObj2T newObj2T)
  | _, _ => Except.error panicInterfaceConversion

/-- The `DeleteFunc` that `bind` installs, as the informer calls it:
`getResourceLabels(obj)`, the selector test, then `kl.delete(obj.(*T))`. -/
def DeleteFunc (kl : k8sLister) (obj : Delivered) : Except String (k8sLister × List Call) :=
  match getResourceLabelsOf kl obj with
  | Except.error msg => Except.error msg
  | Except.ok newLabels =>
    if Matches kl.labels newLabels then
      match obj with
      | Delivered.object obj2T => Except.ok (delete kl obj2T)
      | Delivered.tombstone _ _ => Except.error panicInterfaceConversion
    else Except.ok (kl, [])

end Filter

/-! ## Call sequences and the vocabulary of the specification -/

/-- One call of a cache mutation. -/
inductive Op where
  | add (obj : Object)
  | update (oldObj newObj : Object)
  | delete (obj : Object)
deriving DecidableEq, Repr

/-- Performing one mutation call. -/
def step (kl : k8sLister) : Op → k8sLister × List Call
  | Op.add obj => add kl obj
  | Op.update oldObj newObj => update kl oldObj newObj
  | Op.delete obj => delete kl obj

/-- The cache after a finite sequence of mutation calls. -/
def run (kl : k8sLister) : List Op → k8sLister
  | [] => kl
  | op :: ops => run (step kl op).1 ops

/-- The specification's translator, in its own words: a raw add or delete of
a matching object is an `Add` or `Delete`; a raw update is an `Update` when
both objects match, a `Delete` of the old object when only it matches, an
`Add` of the new object when only it matches; anything else is no
operation. -/
def specTranslate (isMatch : Object → Bool) : RawEvent → Option Op
  | RawEvent.add obj => if isMatch obj then some (Op.add obj) else none
  | RawEvent.delete obj => if isMatch obj then some (Op.delete obj) else none
  | RawEvent.update oldObj newObj =>
    match isMatch oldObj, isMatch newObj with
    | true, true => some (Op.update oldObj newObj)
    | true, false => some (Op.delete oldObj)
    | false, true => some (Op.add newObj)
    | false, false => none

/-- Performing the zero or one operation the translator produced. -/
def specApply (kl : k8sLister) : Option Op → k8sLister × List Call
  | none => (kl, [])
  | some op => step kl op

/-- An `update(oldObj, newObj)` call that replaces one entry by one entry:
either the old name is a key and the new name is the old name or a fresh one,
or the old name is no key and the new name is one. -/
def updateKeepsSize (kl : k8sLister) (oldObj newObj : Object) : Bool :=
  if getResourceName kl oldObj ∈ kl.m then
    decide (getResourceName kl newObj = getResourceName kl oldObj ∨
      getResourceName kl newObj ∉ kl.m)
  else decide (getResourceName kl newObj ∈ kl.m)

/-- A call sequence each of whose `update` calls replaces one entry by one
entry in the state it is made in; `add` and `delete` calls are free. -/
def admissible (kl : k8sLister) : List Op → Bool
  | [] => true
  | Op.update oldObj newObj :: ops =>
    updateKeepsSize kl oldObj newObj && admissible (update kl oldObj newObj).1 ops
  | op :: ops => admissible (step kl op).1 ops

/-- Every entry is stored under the name of its object (the data model's
`mapping<Name, TrackedObject>`). -/
def Keyed (kl : k8sLister) : Prop :=
  ∀ e ∈ kl.m.entries, getResourceName kl e.2 = e.1

instance (kl : k8sLister) : Decidable (Keyed kl) := by
  unfold Keyed; infer_instance

/-- The cache after a finite sequence of raw events, each handled by the
handler that `bind` installed. -/
def runEvents (Matches : labels.Set → labels.Set → Bool) (kl : k8sLister) :
    List RawEvent → k8sLister
  | [] => kl
  | ev :: evs => runEvents Matches (handle Matches kl ev).1 evs

/-- Every callback invocation made during a sequence of mutation calls, in
order. -/
def runCalls (kl : k8sLister) : List Op → List Call
  | [] => []
  | op :: ops => (step kl op).2 ++ runCalls (step kl op).1 ops

/-- Every callback invocation made while a sequence of raw events is
handled, in order. -/
def eventCalls (Matches : labels.Set → labels.Set → Bool) (kl : k8sLister) :
    List RawEvent → List Call
  | [] => []
  | ev :: evs => (handle Matches kl ev).2 ++ eventCalls Matches (handle Matches kl ev).1 evs

/-- The mutation calls that the handler makes for a sequence of raw events;
the selector and the tag of a cache never change, so the matching is that of
the initial cache. -/
def eventOps (Matches : labels.Set → labels.Set → Bool) (kl : k8sLister)
    (evs : List RawEvent) : List Op :=
  evs.filterMap (specTranslate (fun x => Matches kl.labels (getResourceLabels kl x)))

/-- Every stored object has labels that match the selector of the cache. -/
def AllMatch (Matches : labels.Set → labels.Set → Bool) (kl : k8sLister) : Prop :=
  ∀ e ∈ kl.m.entries, filterResource Matches kl e.2 = true

/-! ## The registry `K8sListerGroup` of `lister_group.go` -/

/-- The panic message `PanicInvalidResourceType`. -/
def PanicInvalidResourceType : String := "Same labels for different resources"

/-- A value of the interface type `any`, as far as this package makes one:
the nil interface, a pointer `*k8sLister[T]` (given by the lister it points
to), or a `K8sResourceType`. -/
inductive Any where
  | nil
  | lister (T : TypeArg) (kl : k8sLister)
  | resourceType (r : K8sResourceType)

/-- The comparison `v == r` of an interface value with a `K8sResourceType`
constant: equal dynamic types and equal values. -/
def Any.eqResourceType (v : Any) (r : K8sResourceType) : Bool :=
  match v with
  | Any.resourceType r1 => decide (r1 = r)
  | _ => false

/-- The run-time panic of a write to a nil map. -/
def panicNilMap : String := "assignment to entry in nil map"

/-- The struct `K8sListerGroup`; each of its two Go maps is `nil` (`none`)
until it is made (`client` and `factory` belong to the external informer
machinery). -/
structure K8sListerGroup where
  namespace_ : String
  resourceType : Option (AList (fun _ : String => K8sResourceType))
  mLister : Option (AList (fun _ : String => Any))

/-- `NewK8sListerGroup`: both maps are made. -/
def NewK8sListerGroup (namespace_ : String) : K8sListerGroup :=
  { namespace_ := namespace_, resourceType := some ∅, mLister := some ∅ }

/-- The zero value `new(K8sListerGroup)`: both maps are nil. -/
def zeroListerGroup : K8sListerGroup :=
  { namespace_ := "", resourceType := none, mLister := none }

/-- `createLister`: a new lister boxed in `any`, the nil interface for any
other resource type. -/
def createLister (ls : labels.Set) (resourceType : K8sResourceType) : Any :=
  if resourceType = ResourcePod then Any.lister TypeArg.Pod (newK8sLister ResourcePod ls)
  else if resourceType = ResourceNode then
    Any.lister TypeArg.Node (newK8sLister ResourceNode ls)
  else if resourceType = ResourceDeployment then
    Any.lister TypeArg.Deployment (newK8sLister ResourceDeployment ls)
  else Any.nil

/-- `registerOnAdd`. -/
def registerOnAdd (kl : k8sLister) (onAddHandler : Option Handler) : k8sLister :=
  match onAddHandler with
  | none => kl
  | some h => { kl with onAdd := some h }

/-- `registerOnUpdate`. -/
def registerOnUpdate (kl : k8sLister) (onUpdateHandler : Option Handler) : k8sLister :=
  match onUpdateHandler with
  | none => kl
  | some h => { kl with onUpdate := some h }

/-- `registerOnDelete`. -/
def registerOnDelete (kl : k8sLister) (onDeleteHandler : Option Handler) : k8sLister :=
  match onDeleteHandler with
  | none => kl
  | some h => { kl with onDelete := some h }

/-- `registerOnCntChanged`. -/
def registerOnCntChanged (kl : k8sLister) (onCntChangedHandler : Option Handler) : k8sLister :=
  match onCntChangedHandler with
  | none => kl
  | some h => { kl with onCntChanged := some h }

/-- How a call ends: it returns its `error` result (`none` is `nil`), or it
panics. -/
inductive Exit where
  | returned (err : Option String)
  | panicked (msg : String)
deriving DecidableEq, Repr

/-- The four statements
`klg.mLister[labelsStr].(*k8sLister[T]).registerOnX(handler)` followed by
`return nil`.  The lister is reached through a pointer, so registering writes
the entry of the map; each statement asserts the same dynamic type, so the
first assertion fails or all four succeed.  Reading a nil map gives the nil
interface, on which the assertion fails. -/
def registerHandlers (T : TypeArg) (klg : K8sListerGroup) (key : String)
    (onAddHandler onUpdateHandler onDeleteHandler onCntChangedHandler : Option Handler) :
    Option K8sListerGroup × Exit :=
  match klg.mLister with
  | none => (some klg, Exit.panicked panicInterfaceConversion)
  | some ml =>
    match AList.lookup key ml with
    | some (Any.lister T1 kl) =>
      if T1 = T then
        let kl1 := registerOnAdd kl onAddHandler
        let kl2 := registerOnUpdate kl1 onUpdateHandler
        let kl3 := registerOnDelete kl2 onDeleteHandler
        let kl4 := registerOnCntChanged kl3 onCntChangedHandler
        (some { klg with mLister := some (AList.insert key (Any.lister T1 kl4) ml) },
          Exit.returned none)
      else (some klg, Exit.panicked panicInterfaceConversion)
    | _ => (some klg, Exit.panicked panicInterfaceConversion)

section Listen

variable (labelsStr : labels.Set → String)

/-- The body shared by `ListenPod`, `ListenNode` and `ListenDeployment`,
which differ only in the type argument `T` and the resource-type constant
`r`.  The receiver is a pointer (`none` is `nil`); `labelsStr` is the library
function `labels.Set.String`.  The write `klg.resourceType[labelsStr] = r`
comes first and panics on a nil map; then `klg.mLister` is read (a nil map has
no key) and, for a new key, written, which panics on a nil map. -/
def listenResource (T : TypeArg) (r : K8sResourceType) (klg : Option K8sListerGroup)
    (ls : labels.Set)
    (onAddHandler onUpdateHandler onDeleteHandler onCntChangedHandler : Option Handler) :
    Option K8sListerGroup × Exit :=
  match klg with
  | none => (none, Exit.returned (some "K8sListerGroup is nil"))
  | some g =>
    let key := labelsStr ls
    match g.resourceType with
    | none => (some g, Exit.panicked panicNilMap)
    | some rt =>
      let g1 := { g with resourceType := some (AList.insert key r rt) }
      match g1.mLister with
      | none => (some g1, Exit.panicked panicNilMap)
      | some ml =>
        match AList.lookup key ml with
        | none =>
          let g2 := { g1 with mLister := some (AList.insert key (createLister ls r) ml) }
          registerHandlers T g2 key onAddHandler onUpdateHandler onDeleteHandler
            onCntChangedHandler
        | some v =>
          if !(Any.eqResourceType v r) then (some g1, Exit.panicked PanicInvalidResourceType)
          else
            registerHandlers T g1 key onAddHandler onUpdateHandler onDeleteHandler
              onCntChangedHandler

/-- `ListenPod`. -/
def ListenPod (klg : Option K8sListerGroup) (ls : labels.Set)
    (onAddHandler onUpdateHandler onDeleteHandler onCntChangedHandler : Option Handler) :
    Option K8sListerGroup × Exit :=
  listenResource labelsStr TypeArg.Pod ResourcePod klg ls onAddHandler onUpdateHandler
    onDeleteHandler onCntChangedHandler

/-- `ListenNode`. -/
def ListenNode (klg : Option K8sListerGroup) (ls : labels.Set)
    (onAddHandler onUpdateHandler onDeleteHandler onCntChangedHandler : Option Handler) :
    Option K8sListerGroup × Exit :=
  listenResource labelsStr TypeArg.Node ResourceNode klg ls onAddHandler onUpdateHandler
    onDeleteHandler onCntChangedHandler

/-- `ListenDeployment`. -/
def ListenDeployment (klg : Option K8sListerGroup) (ls : labels.Set)
    (onAddHandler onUpdateHandler onDeleteHandler onCntChangedHandler : Option Handler) :
    Option K8sListerGroup × Exit :=
  listenResource labelsStr TypeArg.Deployment ResourceDeployment klg ls onAddHandler
    onUpdateHandler onDeleteHandler onCntChangedHandler

end Listen

/-- The read `klg.resourceType[key]` (nothing in a nil map). -/
def resourceTypeAt (klg : K8sListerGroup) (key : String) : Option K8sResourceType :=
  klg.resourceType.bind (fun rt => AList.lookup key rt)

/-- The read `klg.mLister[key]` (nothing in a nil map). -/
def listerAt (klg : K8sListerGroup) (key : String) : Option Any :=
  klg.mLister.bind (fun ml => AList.lookup key ml)

/-- What the registry holds for a selector key: the bound resource type, and
for a lister its type argument, its entries, its count and its four callback
slots. -/
def bindingOf (klg : K8sListerGroup) (key : String) :
    Option K8sResourceType × Option (TypeArg × k8sLister) :=
  (resourceTypeAt klg key,
    match listerAt klg key with
    | some (Any.lister T kl) => some (T, kl)
    | _ => none)

/-! ## Concrete inputs -/

/-- A set-based selector at concrete inputs: every pair of the selector
occurs in the labels. -/
def setMatches (selector ls : labels.Set) : Bool :=
  selector.all (fun kv => ls.lookup kv.1 == some kv.2)

def selApi : labels.Set := [("run", "api")]

def podA : Object := { Name := "a", Labels := [("run", "api")], Payload := 0 }
def podA1 : Object := { Name := "a", Labels := [("run", "api")], Payload := 1 }
def podAOther : Object := { Name := "a", Labels := [("run", "other")], Payload := 2 }
def podB : Object := { Name := "b", Labels := [("run", "api")], Payload := 3 }
def podBOther : Object := { Name := "b", Labels := [("run", "other")], Payload := 4 }

/-- A fresh pod cache for the selector `run=api` with all four callbacks
registered. -/
def klEmpty : k8sLister :=
  { newK8sLister ResourcePod selApi with
    onAdd := some 1, onUpdate := some 2, onDelete := some 3, onCntChanged := some 4 }

/-- The cache after `add(podA)`. -/
def klA : k8sLister := (add klEmpty podA).1

/-- The function `labels.Set.String` at concrete inputs: the pairs
`key=value`, sorted, joined by commas. -/
def setString (ls : labels.Set) : String :=
  ",".intercalate ((ls.map (fun kv => kv.1 ++ "=" ++ kv.2)).insertionSort (fun a b => a ≤ b))

/-- The registry of the package test after its first registration:
`ListenPod` for the selector `run=api` with all four callbacks. -/
def klgPod : Option K8sListerGroup :=
  (ListenPod setString (some (NewK8sListerGroup "dsp-ns")) selApi
    (some 1) (some 2) (some 3) (some 4)).1

end k8s_lister

/-! # The rate limiter of package qps_limiter

A shallow embedding of `qps_limiter/qps_limiter.go` and
`qps_limiter/qps_limiter_group.go`.

* A `uint32` is a `Nat`; `atomic.AddUint32` wraps modulo `2 ^ 32`, and the
  conversion `uint32(podCnt)` of a positive `int` keeps the low 32 bits.
* The `sync.Map` `qpsConsumed` maps a Unix second to the counter that the
  stored `*uint32` points to; `qpsLimiterMap` is a Go map that may be `nil`
  (`none`), and its values are the limiters that the stored pointers point
  to (`SetTopLimit` never stores a nil pointer).
* A pointer receiver is an `Option`, `none` being `nil`; a method returns the
  receiver's new state.
* A `time.Time` is given by its Unix second and the nanoseconds within it.
* A run-time panic is `Except.error`.
-/

namespace qps_limiter

/-- A `time.Time`. -/
structure Time where
  sec : Int
  nsec : Nat
deriving DecidableEq, Repr

/-- `timeStamp.Unix()`. -/
def Time.Unix (t : Time) : Int := t.sec

/-- The struct `qpsLimiter`. -/
structure qpsLimiter where
  qpsTopLimit : Nat
  qpsConsumed : AList (fun _ : Int => Nat)

/-- `setTopLimit` on a non-nil limiter. -/
def setTopLimit (q : qpsLimiter) (qpsTopLimit : Nat) : qpsLimiter :=
  { q with qpsTopLimit := qpsTopLimit }

/-- `consumeWithCheck` on a non-nil limiter: `LoadOrStore` of a zero counter
for the second, `atomic.AddUint32(ptr, 1)`, then the comparison with
`qpsTopLimit / podCnt`, whose division panics when `podCnt` is 0 (after the
counter has been incremented). -/
def consumeWithCheck (q : qpsLimiter) (podCnt : Nat) (timeStamp : Time) :
    qpsLimiter × Except String Bool :=
  let timeStampSecond := timeStamp.Unix
  let stored :=
    match AList.lookup timeStampSecond q.qpsConsumed with
    | some _ => q.qpsConsumed
    | none => AList.insert timeStampSecond 0 q.qpsConsumed
  let v := (AList.lookup timeStampSecond stored).getD 0
  let added := (v + 1) % 2 ^ 32
  let q1 := { q with qpsConsumed := AList.insert timeStampSecond added stored }
  if podCnt = 0 then (q1, Except.error "integer divide by zero")
  else (q1, Except.ok (decide (added ≤ q.qpsTopLimit / podCnt)))

/-- The struct `QPSLimiterGroup`. -/
structure QPSLimiterGroup where
  podCnt : Nat
  qpsLimiterMap : Option (AList (fun _ : String => qpsLimiter))

/-- The zero value `new(QPSLimiterGroup)`. -/
def zeroGroup : Option QPSLimiterGroup :=
  some { podCnt := 0, qpsLimiterMap := none }

/-- `UpdatePodInfo`; `podCnt` is a Go `int`. -/
def UpdatePodInfo (q : Option QPSLimiterGroup) (podCnt : Int) : Option QPSLimiterGroup :=
  match q with
  | none => none
  | some g =>
    if podCnt ≤ 0 then some g
    else some { g with podCnt := podCnt.toNat % 2 ^ 32 }

/-- `SetTopLimit`. -/
def SetTopLimit (q : Option QPSLimiterGroup) (key : String) (topLimit : Nat) :
    Option QPSLimiterGroup :=
  match q with
  | none => none
  | some g =>
    let m0 : AList (fun _ : String => qpsLimiter) :=
      match g.qpsLimiterMap with
      | none => ∅
      | some m => m
    let m1 :=
      match AList.lookup key m0 with
      | some _ => m0
      | none => AList.insert key { qpsTopLimit := 0, qpsConsumed := ∅ } m0
    match AList.lookup key m1 with
    | some lim => some { g with qpsLimiterMap := some (AList.insert key (setTopLimit lim topLimit) m1) }
    | none => some { g with qpsLimiterMap := some m1 }

/-- The error of `checkWithTime` for a missing pod count. -/
def errPodInfo : String := "pod info is not complete"

/-- The error of `checkWithTime` for an unknown key. -/
def errKey (key : String) : String := "key " ++ key ++ " is not exist"

/-- `checkWithTime`: the pair `(bool, error)` it returns (`none` is the `nil`
error), or the panic of the division. -/
def checkWithTime (q : Option QPSLimiterGroup) (key : String) (timeStamp : Time) :
    Option QPSLimiterGroup × Except String (Bool × Option String) :=
  match q with
  | none => (none, Except.ok (false, some errPodInfo))
  | some g =>
    if g.podCnt ≤ 0 then (some g, Except.ok (false, some errPodInfo))
    else
      match g.qpsLimiterMap with
      | none => (some g, Except.ok (false, some (errKey key)))
      | some m =>
        match AList.lookup key m with
        | none => (some g, Except.ok (false, some (errKey key)))
        | some lim =>
          match consumeWithCheck lim g.podCnt timeStamp with
          | (lim1, Except.ok b) =>
            (some { g with qpsLimiterMap := some (AList.insert key lim1 m) },
              Except.ok (b, none))
          | (lim1, Except.error msg) =>
            (some { g with qpsLimiterMap := some (AList.insert key lim1 m) },
              Except.error msg)

/-! ## Call sequences -/

/-- The group and the results after a finite sequence of `checkWithTime`
calls, each given by its key and its timestamp. -/
def runChecks (q : Option QPSLimiterGroup) :
    List (String × Time) → Option QPSLimiterGroup × List (Except String (Bool × Option String))
  | [] => (q, [])
  | c :: cs =>
    ((runChecks (checkWithTime q c.1 c.2).1 cs).1,
      (checkWithTime q c.1 c.2).2 :: (runChecks (checkWithTime q c.1 c.2).1 cs).2)

/-- A call that returned `true`. -/
def granted (r : Except String (Bool × Option String)) : Bool :=
  match r with
  | Except.ok (true, _) => true
  | _ => false

/-- A call that returned a non-nil error. -/
def failed (r : Except String (Bool × Option String)) : Bool :=
  match r with
  | Except.ok (_, some _) => true
  | _ => false

/-- The number of calls of a sequence made for `key` with a timestamp in the
Unix second `s`. -/
def hits (key : String) (s : Int) (calls : List (String × Time)) : Nat :=
  calls.countP (fun c => decide (c.1 = key ∧ c.2.Unix = s))

/-- One configuration call. -/
inductive Setup where
  | UpdatePodInfo (podCnt : Int)
  | SetTopLimit (key : String) (topLimit : Nat)
deriving DecidableEq, Repr

/-- The group after a finite sequence of configuration calls. -/
def build (q : Option QPSLimiterGroup) : List Setup → Option QPSLimiterGroup
  | [] => q
  | Setup.UpdatePodInfo n :: cs => build (UpdatePodInfo q n) cs
  | Setup.SetTopLimit key l :: cs => build (SetTopLimit q key l) cs

/-- One call on a group: a configuration call or a check. -/
inductive GroupCall where
  | UpdatePodInfo (podCnt : Int)
  | SetTopLimit (key : String) (topLimit : Nat)
  | checkWithTime (key : String) (timeStamp : Time)
deriving DecidableEq, Repr

/-- The group after a finite sequence of calls of the three kinds, and the
results of the `checkWithTime` calls among them, in order. -/
def runGroupCalls (q : Option QPSLimiterGroup) :
    List GroupCall → Option QPSLimiterGroup × List (Except String (Bool × Option String))
  | [] => (q, [])
  | GroupCall.UpdatePodInfo n :: cs => runGroupCalls (UpdatePodInfo q n) cs
  | GroupCall.SetTopLimit key l :: cs => runGroupCalls (SetTopLimit q key l) cs
  | GroupCall.checkWithTime key t :: cs =>
    ((runGroupCalls (checkWithTime q key t).1 cs).1,
      (checkWithTime q key t).2 :: (runGroupCalls (checkWithTime q key t).1 cs).2)

/-- The `podCnt` argument with which `checkWithTime(key, _)` calls
`consumeWithCheck`, that is the divisor of `qpsTopLimit / podCnt`; `none` when
the call returns before it gets there (nil group, pod count 0, unknown
key). -/
def divisorOf (q : Option QPSLimiterGroup) (key : String) : Option Nat :=
  match q with
  | none => none
  | some g =>
    if g.podCnt ≤ 0 then none
    else
      match g.qpsLimiterMap with
      | none => none
      | some m =>
        match AList.lookup key m with
        | none => none
        | some _ => some g.podCnt

/-! ## Views of a group -/

/-- The field `podCnt` (0 for a nil group). -/
def podCntOf (q : Option QPSLimiterGroup) : Nat :=
  match q with
  | some g => g.podCnt
  | none => 0

/-- The limiter stored for a key, if any. -/
def limiterOf (q : Option QPSLimiterGroup) (key : String) : Option qpsLimiter :=
  match q with
  | some g =>
    match g.qpsLimiterMap with
    | some m => AList.lookup key m
    | none => none
  | none => none

/-- The top limit set for a key, if any. -/
def topLimitOf (q : Option QPSLimiterGroup) (key : String) : Option Nat :=
  (limiterOf q key).map (fun lim => lim.qpsTopLimit)

/-- The counter of a limiter for a second (0 when none is stored yet). -/
def counterOf (lim : qpsLimiter) (s : Int) : Nat :=
  (AList.lookup s lim.qpsConsumed).getD 0

/-- The counter of a key for a second (0 when none is stored yet). -/
def consumed (q : Option QPSLimiterGroup) (key : String) (s : Int) : Nat :=
  match limiterOf q key with
  | some lim => counterOf lim s
  | none => 0

/-- The group has pod count `P`, and for `key` the top limit `L` and, for the
second `s`, the counter `c`. -/
def Tracks (q : Option QPSLimiterGroup) (P : Nat) (key : String) (L : Nat) (s : Int)
    (c : Nat) : Prop :=
  podCntOf q = P ∧ topLimitOf q key = some L ∧ consumed q key s = c

/-! ## Concrete inputs -/

def t0 : Time := { sec := 1700000000, nsec := 0 }
def t0Late : Time := { sec := 1700000000, nsec := 999999999 }
def t1 : Time := { sec := 1700000001, nsec := 0 }

/-- The group of the benchmarks: pod count 1 and a top limit for one key. -/
def groupWithLimit (topLimit : Nat) : Option QPSLimiterGroup :=
  SetTopLimit (UpdatePodInfo zeroGroup 1) "k" topLimit

end qps_limiter

namespace k8s_lister

/-! ## Lemmas on the map -/

namespace SyncMap

theorem size_eq_length_keys (m : SyncMap) : size m = m.keys.length := by
  simp [size, AList.keys, List.keys]

theorem size_insert_of_not_mem {m : SyncMap} {k : String} (v : Object) (h : k ∉ m) :
    size (AList.insert k v m) = size m + 1 := by
  rw [size, AList.insert_entries_of_neg h]; rfl

theorem size_erase_of_mem {m : SyncMap} {k : String} (h : k ∈ m) :
    size (AList.erase k m) + 1 = size m := by
  have hk : k ∈ m.keys := AList.mem_keys.1 h
  have hpos : 0 < m.keys.length := List.length_pos_of_mem hk
  rw [size_eq_length_keys, size_eq_length_keys, AList.keys_erase,
    List.length_erase_of_mem hk]
  omega

theorem erase_of_not_mem {m : SyncMap} {k : String} (h : k ∉ m) : AList.erase k m = m := by
  apply AList.ext
  exact List.kerase_of_not_mem_keys (fun hk => h (AList.mem_keys.2 hk))

theorem size_insert_of_mem {m : SyncMap} {k : String} (v : Object) (h : k ∈ m) :
    size (AList.insert k v m) = size m := by
  have hk : k ∈ m.keys := AList.mem_keys.1 h
  have hpos : 0 < m.keys.length := List.length_pos_of_mem hk
  rw [size_eq_length_keys, size_eq_length_keys, AList.keys_insert, List.length_cons,
    List.length_erase_of_mem hk]
  omega

theorem mem_of_lookup_eq_some {m : SyncMap} {k : String} {v : Object}
    (h : AList.lookup k m = some v) : k ∈ m := by
  rw [← AList.lookup_isSome, h]; rfl

end SyncMap

/-! ## The three mutations, case by case -/

theorem add_of_present {kl : k8sLister} {obj stored : Object}
    (h : AList.lookup (getResourceName kl obj) kl.m = some stored) :
    add kl obj = (kl, invoke kl.onUpdate (Call.onUpdate stored obj)) := by
  simp [add, SyncMap.LoadOrStore, h]

theorem add_of_absent {kl : k8sLister} {obj : Object}
    (h : AList.lookup (getResourceName kl obj) kl.m = none) :
    add kl obj =
      ({ kl with m := AList.insert (getResourceName kl obj) obj kl.m, cnt := kl.cnt + 1 },
        invoke kl.onAdd (Call.onAdd obj) ++
          invoke kl.onCntChanged (Call.onCntChanged (kl.cnt + 1))) := by
  simp [add, SyncMap.LoadOrStore, h]

theorem delete_of_present {kl : k8sLister} {obj stored : Object}
    (h : AList.lookup (getResourceName kl obj) kl.m = some stored) :
    delete kl obj =
      ({ kl with m := AList.erase (getResourceName kl obj) kl.m, cnt := kl.cnt - 1 },
        invoke kl.onDelete (Call.onDelete obj) ++
          invoke kl.onCntChanged (Call.onCntChanged (kl.cnt - 1))) := by
  simp [delete, SyncMap.LoadAndDelete, h]

theorem delete_of_absent {kl : k8sLister} {obj : Object}
    (h : AList.lookup (getResourceName kl obj) kl.m = none) :
    delete kl obj = (kl, []) := by
  simp [delete, SyncMap.LoadAndDelete, h]

theorem update_eq (kl : k8sLister) (oldObj newObj : Object) :
    update kl oldObj newObj =
      ({ kl with
          m := AList.insert (getResourceName kl newObj) newObj
                (AList.erase (getResourceName kl oldObj) kl.m) },
        invoke kl.onUpdate (Call.onUpdate oldObj newObj)) := rfl

/-! ## The count and the number of entries -/

theorem add_keeps_cnt_size {kl : k8sLister} (obj : Object)
    (h : kl.cnt = (SyncMap.size kl.m : Int)) :
    (add kl obj).1.cnt = (SyncMap.size (add kl obj).1.m : Int) := by
  cases hl : AList.lookup (getResourceName kl obj) kl.m with
  | some stored => rw [add_of_present hl]; exact h
  | none =>
    rw [add_of_absent hl]
    have hn : getResourceName kl obj ∉ kl.m := AList.lookup_eq_none.1 hl
    simp only [SyncMap.size_insert_of_not_mem obj hn, h]
    push_cast; rfl

theorem delete_keeps_cnt_size {kl : k8sLister} (obj : Object)
    (h : kl.cnt = (SyncMap.size kl.m : Int)) :
    (delete kl obj).1.cnt = (SyncMap.size (delete kl obj).1.m : Int) := by
  cases hl : AList.lookup (getResourceName kl obj) kl.m with
  | some stored =>
    rw [delete_of_present hl]
    have hm := SyncMap.size_erase_of_mem (SyncMap.mem_of_lookup_eq_some hl)
    simp only [h]
    omega
  | none => rw [delete_of_absent hl]; exact h

theorem update_size_of_keeps {kl : k8sLister} {oldObj newObj : Object}
    (h : updateKeepsSize kl oldObj newObj = true) :
    SyncMap.size (update kl oldObj newObj).1.m = SyncMap.size kl.m := by
  rw [update_eq]
  unfold updateKeepsSize at h
  by_cases ho : getResourceName kl oldObj ∈ kl.m
  · rw [if_pos ho, decide_eq_true_eq] at h
    have he := SyncMap.size_erase_of_mem ho
    have hn : getResourceName kl newObj ∉ AList.erase (getResourceName kl oldObj) kl.m := by
      rw [AList.mem_erase]
      rintro ⟨hne, hmem⟩
      rcases h with h | h
      · exact hne h
      · exact h hmem
    have hi := SyncMap.size_insert_of_not_mem newObj hn
    simp only [hi]
    omega
  · rw [if_neg ho, decide_eq_true_eq] at h
    simp only [SyncMap.erase_of_not_mem ho]
    exact SyncMap.size_insert_of_mem newObj h

theorem update_keeps_cnt_size {kl : k8sLister} {oldObj newObj : Object}
    (hk : updateKeepsSize kl oldObj newObj = true)
    (h : kl.cnt = (SyncMap.size kl.m : Int)) :
    (update kl oldObj newObj).1.cnt = (SyncMap.size (update kl oldObj newObj).1.m : Int) := by
  rw [update_size_of_keeps hk]; exact h

theorem run_keeps_cnt_size (ops : List Op) :
    ∀ kl : k8sLister, kl.cnt = (SyncMap.size kl.m : Int) → admissible kl ops = true →
      (run kl ops).cnt = (SyncMap.size (run kl ops).m : Int) := by
  induction ops with
  | nil => intro kl h _; exact h
  | cons op ops ih =>
    intro kl h hadm
    cases op with
    | add obj => exact ih _ (add_keeps_cnt_size obj h) hadm
    | delete obj => exact ih _ (delete_keeps_cnt_size obj h) hadm
    | update oldObj newObj =>
      simp only [admissible, Bool.and_eq_true] at hadm
      exact ih _ (update_keeps_cnt_size hadm.1 h) hadm.2

/-! ## Lookups after a mutation -/

theorem get_eq_lookup (kl : k8sLister) (k : String) : get kl k = AList.lookup k kl.m := rfl

theorem getResourceName_congr {kl kl1 : k8sLister} (h : kl1.t = kl.t) (obj : Object) :
    getResourceName kl1 obj = getResourceName kl obj := by
  simp [getResourceName, h]

theorem add_t (kl : k8sLister) (obj : Object) : (add kl obj).1.t = kl.t := by
  cases hl : AList.lookup (getResourceName kl obj) kl.m with
  | some stored => rw [add_of_present hl]
  | none => rw [add_of_absent hl]

theorem add_onUpdate (kl : k8sLister) (obj : Object) : (add kl obj).1.onUpdate = kl.onUpdate := by
  cases hl : AList.lookup (getResourceName kl obj) kl.m with
  | some stored => rw [add_of_present hl]
  | none => rw [add_of_absent hl]

/-- An `add` never changes what is stored under a key that is present. -/
theorem add_lookup_of_present {kl : k8sLister} (obj : Object) {k : String} {v : Object}
    (h : AList.lookup k kl.m = some v) : AList.lookup k (add kl obj).1.m = some v := by
  cases hl : AList.lookup (getResourceName kl obj) kl.m with
  | some stored => rw [add_of_present hl]; exact h
  | none =>
    rw [add_of_absent hl]
    have hne : k ≠ getResourceName kl obj := by
      intro he; rw [he, hl] at h; exact Option.noConfusion h
    simp only [AList.lookup_insert_ne hne, h]

/-- After `add(obj)` the name of `obj` is a key. -/
theorem add_lookup_self (kl : k8sLister) (obj : Object) :
    ∃ v, AList.lookup (getResourceName kl obj) (add kl obj).1.m = some v := by
  cases hl : AList.lookup (getResourceName kl obj) kl.m with
  | some stored => rw [add_of_present hl]; exact ⟨stored, hl⟩
  | none => rw [add_of_absent hl]; exact ⟨obj, AList.lookup_insert _⟩

/-- A run of `add` calls keeps the tag, the `onUpdate` slot, and whatever is
stored under a key that is present. -/
theorem run_adds_frame (mids : List Object) :
    ∀ kl : k8sLister, (run kl (mids.map Op.add)).t = kl.t ∧
      (run kl (mids.map Op.add)).onUpdate = kl.onUpdate ∧
      ∀ (k : String) (v : Object), AList.lookup k kl.m = some v →
        AList.lookup k (run kl (mids.map Op.add)).m = some v := by
  induction mids with
  | nil => intro kl; exact ⟨rfl, rfl, fun _ _ h => h⟩
  | cons x xs ih =>
    intro kl
    obtain ⟨ht, hu, hl⟩ := ih (add kl x).1
    refine ⟨?_, ?_, ?_⟩
    · exact ht.trans (add_t kl x)
    · exact hu.trans (add_onUpdate kl x)
    · intro k v h
      exact hl k v (add_lookup_of_present x h)

/-- An entry that survives the removal of key `a` was there before and has
another key. -/
theorem mem_entries_erase {m : SyncMap} {a : String} {e : Sigma (fun _ : String => Object)}
    (h : e ∈ (AList.erase a m).entries) : e ∈ m.entries ∧ e.1 ≠ a := by
  refine ⟨(List.kerase_sublist a m.entries).subset h, ?_⟩
  have hk : e.1 ∈ AList.erase a m :=
    AList.mem_keys.2 (List.mem_keys_of_mem h)
  exact (AList.mem_erase.1 hk).1

/-! ## Frame lemmas: what a mutation leaves alone -/

theorem step_frame (kl : k8sLister) (op : Op) :
    (step kl op).1.t = kl.t ∧ (step kl op).1.labels = kl.labels := by
  cases op with
  | add obj =>
    cases hl : AList.lookup (getResourceName kl obj) kl.m with
    | some stored => simp only [step, add_of_present hl, and_self]
    | none => simp only [step, add_of_absent hl, and_self]
  | delete obj =>
    cases hl : AList.lookup (getResourceName kl obj) kl.m with
    | some stored => simp only [step, delete_of_present hl, and_self]
    | none => simp only [step, delete_of_absent hl, and_self]
  | update oldObj newObj => exact ⟨rfl, rfl⟩

theorem getResourceLabels_congr {kl kl1 : k8sLister} (h : kl1.t = kl.t) (obj : Object) :
    getResourceLabels kl1 obj = getResourceLabels kl obj := by
  simp [getResourceLabels, h]

theorem filterResource_congr (Matches : labels.Set → labels.Set → Bool) {kl kl1 : k8sLister}
    (ht : kl1.t = kl.t) (hl : kl1.labels = kl.labels) (obj : Object) :
    filterResource Matches kl1 obj = filterResource Matches kl obj := by
  simp [filterResource, getResourceLabels_congr ht, hl]

/-- The handler performs the operation that the translator names (the
statement of the translator refinement, for use in the lemmas below). -/
theorem handle_specApply (Matches : labels.Set → labels.Set → Bool)
    (kl : k8sLister) (ev : RawEvent) :
    handle Matches kl ev =
      specApply kl
        (specTranslate (fun x => Matches kl.labels (getResourceLabels kl x)) ev) := by
  cases ev with
  | add obj =>
    simp only [handle, AddFuncOn, filterResource, specTranslate]
    split <;> rfl
  | delete obj =>
    simp only [handle, DeleteFuncOn, specTranslate]
    split <;> rfl
  | update oldObj newObj =>
    cases ho : Matches kl.labels (getResourceLabels kl oldObj) <;>
      cases hn : Matches kl.labels (getResourceLabels kl newObj) <;>
      simp [handle, UpdateFuncOn, filterResource, specTranslate, specApply, step, ho, hn]

theorem handle_frame (Matches : labels.Set → labels.Set → Bool) (kl : k8sLister)
    (ev : RawEvent) :
    (handle Matches kl ev).1.t = kl.t ∧ (handle Matches kl ev).1.labels = kl.labels := by
  rw [handle_specApply]
  cases specTranslate (fun x => Matches kl.labels (getResourceLabels kl x)) ev with
  | none => exact ⟨rfl, rfl⟩
  | some op => exact step_frame kl op

theorem eventOps_congr (Matches : labels.Set → labels.Set → Bool) {kl kl1 : k8sLister}
    (ht : kl1.t = kl.t) (hl : kl1.labels = kl.labels) (evs : List RawEvent) :
    eventOps Matches kl1 evs = eventOps Matches kl evs := by
  have hf : (fun x => Matches kl1.labels (getResourceLabels kl1 x)) =
      (fun x => Matches kl.labels (getResourceLabels kl x)) := by
    funext x
    rw [hl, getResourceLabels_congr ht]
  simp only [eventOps, hf]

/-- Handling raw events is performing the mutation calls they translate
to: same final cache, same callback invocations. -/
theorem runEvents_eq_run (Matches : labels.Set → labels.Set → Bool) (evs : List RawEvent) :
    ∀ kl : k8sLister, runEvents Matches kl evs = run kl (eventOps Matches kl evs) ∧
      eventCalls Matches kl evs = runCalls kl (eventOps Matches kl evs) := by
  induction evs with
  | nil => intro kl; exact ⟨rfl, rfl⟩
  | cons ev evs ih =>
    intro kl
    have hfr := handle_frame Matches kl ev
    have ih1 := ih (handle Matches kl ev).1
    rw [eventOps_congr Matches hfr.1 hfr.2] at ih1
    have hh := handle_specApply Matches kl ev
    simp only [runEvents, eventCalls, ih1.1, ih1.2]
    simp only [eventOps, List.filterMap_cons]
    cases hs : specTranslate (fun x => Matches kl.labels (getResourceLabels kl x)) ev with
    | none =>
      rw [hs] at hh
      simp only [hh, specApply, List.nil_append, eventOps, and_self]
    | some op =>
      rw [hs] at hh
      simp only [hh, specApply, run, runCalls, eventOps, and_self]

/-! ## Stored objects match the selector -/

theorem mem_entries_insert {m : SyncMap} {a : String} {b : Object}
    {e : Sigma (fun _ : String => Object)} (h : e ∈ (AList.insert a b m).entries) :
    e = ⟨a, b⟩ ∨ e ∈ m.entries := by
  rw [AList.insert_entries, List.mem_cons] at h
  rcases h with h | h
  · exact Or.inl h
  · exact Or.inr ((List.kerase_sublist a m.entries).subset h)

theorem add_keeps_AllMatch (Matches : labels.Set → labels.Set → Bool) {kl : k8sLister}
    {obj : Object} (h : AllMatch Matches kl) (hobj : filterResource Matches kl obj = true) :
    AllMatch Matches (add kl obj).1 := by
  cases hl : AList.lookup (getResourceName kl obj) kl.m with
  | some stored => rw [add_of_present hl]; exact h
  | none =>
    rw [add_of_absent hl]
    intro e he
    rcases mem_entries_insert he with rfl | he
    · exact hobj
    · exact h e he

theorem delete_keeps_AllMatch (Matches : labels.Set → labels.Set → Bool) {kl : k8sLister}
    (obj : Object) (h : AllMatch Matches kl) : AllMatch Matches (delete kl obj).1 := by
  cases hl : AList.lookup (getResourceName kl obj) kl.m with
  | some stored =>
    rw [delete_of_present hl]
    intro e he
    exact h e (mem_entries_erase he).1
  | none => rw [delete_of_absent hl]; exact h

theorem update_keeps_AllMatch (Matches : labels.Set → labels.Set → Bool) {kl : k8sLister}
    (oldObj : Object) {newObj : Object} (h : AllMatch Matches kl)
    (hnew : filterResource Matches kl newObj = true) :
    AllMatch Matches (update kl oldObj newObj).1 := by
  rw [update_eq]
  intro e he
  rcases mem_entries_insert he with rfl | he
  · exact hnew
  · exact h e (mem_entries_erase he).1

theorem handle_keeps_AllMatch (Matches : labels.Set → labels.Set → Bool) (kl : k8sLister)
    (ev : RawEvent) (h : AllMatch Matches kl) : AllMatch Matches (handle Matches kl ev).1 := by
  cases ev with
  | add obj =>
    simp only [handle, AddFuncOn]
    split
    · next hm => exact add_keeps_AllMatch Matches h hm
    · exact h
  | delete obj =>
    simp only [handle, DeleteFuncOn]
    split
    · exact delete_keeps_AllMatch Matches obj h
    · exact h
  | update oldObj newObj =>
    cases ho : filterResource Matches kl oldObj <;>
      cases hn : filterResource Matches kl newObj <;>
      simp only [handle, UpdateFuncOn, ho, hn, Bool.and_self, Bool.and_true, Bool.and_false,
        Bool.false_eq_true, if_false, if_true]
    · exact h
    · exact add_keeps_AllMatch Matches h hn
    · exact delete_keeps_AllMatch Matches oldObj h
    · exact update_keeps_AllMatch Matches oldObj h hn

theorem runEvents_keeps_AllMatch (Matches : labels.Set → labels.Set → Bool)
    (evs : List RawEvent) :
    ∀ kl : k8sLister, AllMatch Matches kl → AllMatch Matches (runEvents Matches kl evs) := by
  induction evs with
  | nil => intro kl h; exact h
  | cons ev evs ih =>
    intro kl h
    exact ih _ (handle_keeps_AllMatch Matches kl ev h)

/-! ## The values passed to `onCntChanged` -/

theorem mem_invoke {slot : Option Handler} {c d : Call} (h : d ∈ invoke slot c) : d = c := by
  cases slot with
  | none => simp [invoke] at h
  | some f => simpa [invoke] using h

theorem step_cntChanged_nonneg {kl : k8sLister} (op : Op)
    (h : kl.cnt = (SyncMap.size kl.m : Int)) (n : Int)
    (hn : Call.onCntChanged n ∈ (step kl op).2) : 0 ≤ n := by
  cases op with
  | add obj =>
    cases hl : AList.lookup (getResourceName kl obj) kl.m with
    | some stored =>
      simp only [step, add_of_present hl] at hn
      exact Call.noConfusion (mem_invoke hn)
    | none =>
      simp only [step, add_of_absent hl, List.mem_append] at hn
      rcases hn with hn | hn
      · exact Call.noConfusion (mem_invoke hn)
      · have := Call.onCntChanged.inj (mem_invoke hn)
        omega
  | delete obj =>
    cases hl : AList.lookup (getResourceName kl obj) kl.m with
    | some stored =>
      simp only [step, delete_of_present hl, List.mem_append] at hn
      have hm := SyncMap.size_erase_of_mem (SyncMap.mem_of_lookup_eq_some hl)
      rcases hn with hn | hn
      · exact Call.noConfusion (mem_invoke hn)
      · have := Call.onCntChanged.inj (mem_invoke hn)
        omega
    | none =>
      simp only [step, delete_of_absent hl, List.not_mem_nil] at hn
  | update oldObj newObj =>
    simp only [step, update_eq] at hn
    exact Call.noConfusion (mem_invoke hn)

theorem runCalls_cntChanged_nonneg (ops : List Op) :
    ∀ kl : k8sLister, kl.cnt = (SyncMap.size kl.m : Int) → admissible kl ops = true →
      ∀ n : Int, Call.onCntChanged n ∈ runCalls kl ops → 0 ≤ n := by
  induction ops with
  | nil => intro kl _ _ n hn; simp [runCalls] at hn
  | cons op ops ih =>
    intro kl h hadm n hn
    simp only [runCalls, List.mem_append] at hn
    rcases hn with hn | hn
    · exact step_cntChanged_nonneg op h n hn
    · cases op with
      | add obj => exact ih _ (add_keeps_cnt_size obj h) hadm n hn
      | delete obj => exact ih _ (delete_keeps_cnt_size obj h) hadm n hn
      | update oldObj newObj =>
        simp only [admissible, Bool.and_eq_true] at hadm
        exact ih _ (update_keeps_cnt_size hadm.1 h) hadm.2 n hn

/-! ## A lister with one of the three resource types -/

theorem getResourceName_of_tag {kl : k8sLister}
    (h : kl.t = ResourceNode ∨ kl.t = ResourcePod ∨ kl.t = ResourceDeployment)
    (obj : Object) : getResourceName kl obj = obj.Name := by
  unfold getResourceName
  split_ifs with h1 h2 h3
  · rfl
  · rfl
  · rfl
  · rcases h with h | h | h
    · exact absurd h h1
    · exact absurd h h2
    · exact absurd h h3

theorem getResourceLabels_of_tag {kl : k8sLister}
    (h : kl.t = ResourceNode ∨ kl.t = ResourcePod ∨ kl.t = ResourceDeployment)
    (obj : Object) : getResourceLabels kl obj = obj.Labels := by
  unfold getResourceLabels
  split_ifs with h1 h2 h3
  · rfl
  · rfl
  · rfl
  · rcases h with h | h | h
    · exact absurd h h1
    · exact absurd h h2
    · exact absurd h h3

/-- The handlers are installed by `bind` only on a lister whose tag is one
of the three resource types: for any other tag the informer is nil. -/
theorem tag_of_bind {kl : k8sLister} (h : bind kl = Except.ok ()) :
    kl.t = ResourceNode ∨ kl.t = ResourcePod ∨ kl.t = ResourceDeployment := by
  unfold bind initInformer at h
  split_ifs at h with h1 h2 h3
  · exact Or.inr (Or.inl h1)
  · exact Or.inr (Or.inr h2)
  · exact Or.inl h3

/-- A lister that `createLister` makes has one of the three tags, and the
mutation calls never change the tag. -/
theorem tag_of_createLister {ls : labels.Set} {r : K8sResourceType} {T : TypeArg}
    {kl : k8sLister} (h : createLister ls r = Any.lister T kl) :
    kl.t = ResourceNode ∨ kl.t = ResourcePod ∨ kl.t = ResourceDeployment := by
  unfold createLister at h
  split_ifs at h <;> simp only [Any.lister.injEq] at h
  · rw [← h.2]; exact Or.inr (Or.inl rfl)
  · rw [← h.2]; exact Or.inl rfl
  · rw [← h.2]; exact Or.inr (Or.inr rfl)

/-! ## The handlers as the informer calls them -/

theorem AddFunc_object (Matches : labels.Set → labels.Set → Bool) (kl : k8sLister)
    (obj : Object) :
    AddFunc Matches kl (Delivered.object obj) =
      Except.ok (handle Matches kl (RawEvent.add obj)) := rfl

theorem UpdateFunc_object (Matches : labels.Set → labels.Set → Bool) (kl : k8sLister)
    (oldObj newObj : Object) :
    UpdateFunc Matches kl (Delivered.object oldObj) (Delivered.object newObj) =
      Except.ok (handle Matches kl (RawEvent.update oldObj newObj)) := rfl

/-- On a value that is a `*T` the assertions of `DeleteFunc` succeed. -/
theorem DeleteFunc_object (Matches : labels.Set → labels.Set → Bool) (kl : k8sLister)
    (obj : Object) :
    DeleteFunc Matches kl (Delivered.object obj) =
      Except.ok (handle Matches kl (RawEvent.delete obj)) := by
  unfold DeleteFunc getResourceLabelsOf
  by_cases hv : kl.t = ResourceNode ∨ kl.t = ResourcePod ∨ kl.t = ResourceDeployment
  · simp only [hv, if_true, handle, DeleteFuncOn, getResourceLabels_of_tag hv]
    split <;> rfl
  · have hl : getResourceLabels kl obj = [] := by
      unfold getResourceLabels
      split_ifs with h1 h2 h3
      · exact absurd (Or.inl h1) hv
      · exact absurd (Or.inr (Or.inl h2)) hv
      · exact absurd (Or.inr (Or.inr h3)) hv
      · rfl
    simp only [hv, if_false, handle, DeleteFuncOn, hl]
    split <;> rfl

/-- On a tombstone the assertion in `getResourceLabels` fails: the handler
that `bind` installed panics on a `cache.DeletedFinalStateUnknown`. -/
theorem DeleteFunc_tombstone (Matches : labels.Set → labels.Set → Bool) {kl : k8sLister}
    (h : bind kl = Except.ok ()) (key : String) (obj : Object) :
    DeleteFunc Matches kl (Delivered.tombstone key obj) =
      Except.error panicInterfaceConversion := by
  unfold DeleteFunc getResourceLabelsOf
  simp only [tag_of_bind h, if_true]

/-! ## Entries are stored under the names of their objects -/

theorem step_keeps_Keyed {kl : k8sLister} (op : Op) (h : Keyed kl) : Keyed (step kl op).1 := by
  cases op with
  | add obj =>
    cases hl : AList.lookup (getResourceName kl obj) kl.m with
    | some stored => simp only [step, add_of_present hl]; exact h
    | none =>
      simp only [step, add_of_absent hl]
      intro e he
      rcases mem_entries_insert he with rfl | he
      · exact getResourceName_congr rfl obj
      · exact (getResourceName_congr rfl e.2).trans (h e he)
  | delete obj =>
    cases hl : AList.lookup (getResourceName kl obj) kl.m with
    | some stored =>
      simp only [step, delete_of_present hl]
      intro e he
      exact (getResourceName_congr rfl e.2).trans (h e (mem_entries_erase he).1)
    | none => simp only [step, delete_of_absent hl]; exact h
  | update oldObj newObj =>
    simp only [step, update_eq]
    intro e he
    rcases mem_entries_insert he with rfl | he
    · exact getResourceName_congr rfl newObj
    · exact (getResourceName_congr rfl e.2).trans (h e (mem_entries_erase he).1)

/-- Every state reached from an empty cache by `add`, `update` and `delete`
calls stores each entry under the name of its object. -/
theorem run_keeps_Keyed (ops : List Op) :
    ∀ kl : k8sLister, Keyed kl → Keyed (run kl ops) := by
  induction ops with
  | nil => intro kl h; exact h
  | cons op ops ih => intro kl h; exact ih _ (step_keeps_Keyed op h)

theorem Keyed_of_empty {kl : k8sLister} (hm : kl.m = ∅) : Keyed kl := by
  intro e he
  rw [hm] at he
  exact absurd he (List.not_mem_nil e)

/-! ## The registry, case by case -/

/-- Registering on a key that already holds a lister: the resource type of
the key is overwritten, then the comparison of the stored lister with the
resource-type constant finds them different and the call panics. -/
theorem listenResource_of_bound (labelsStr : labels.Set → String) (T T0 : TypeArg)
    (r : K8sResourceType) (g : K8sListerGroup) (ls : labels.Set) (kl : k8sLister)
    (rt : AList (fun _ : String => K8sResourceType)) (ml : AList (fun _ : String => Any))
    (h1 h2 h3 h4 : Option Handler)
    (hrt : g.resourceType = some rt) (hml : g.mLister = some ml)
    (hb : AList.lookup (labelsStr ls) ml = some (Any.lister T0 kl)) :
    listenResource labelsStr T r (some g) ls h1 h2 h3 h4 =
      (some { g with resourceType := some (AList.insert (labelsStr ls) r rt) },
        Exit.panicked PanicInvalidResourceType) := by
  simp [listenResource, hrt, hml, hb, Any.eqResourceType]

/-- Registering on a key that holds no value, in a registry whose maps are
made, for one of the three resource types with its own type argument. -/
theorem listenResource_of_unbound (labelsStr : labels.Set → String) (T : TypeArg)
    (r : K8sResourceType) (g : K8sListerGroup) (ls : labels.Set)
    (rt : AList (fun _ : String => K8sResourceType)) (ml : AList (fun _ : String => Any))
    (h1 h2 h3 h4 : Option Handler)
    (hc : createLister ls r = Any.lister T (newK8sLister r ls))
    (hrt : g.resourceType = some rt) (hml : g.mLister = some ml)
    (hu : labelsStr ls ∉ ml) :
    listenResource labelsStr T r (some g) ls h1 h2 h3 h4 =
      (some { g with
          resourceType := some (AList.insert (labelsStr ls) r rt),
          mLister := some (AList.insert (labelsStr ls)
            (Any.lister T { newK8sLister r ls with
              onAdd := h1, onUpdate := h2, onDelete := h3, onCntChanged := h4 })
            (AList.insert (labelsStr ls) (createLister ls r) ml)) },
        Exit.returned none) := by
  have hl : AList.lookup (labelsStr ls) ml = none := AList.lookup_eq_none.2 hu
  cases h1 <;> cases h2 <;> cases h3 <;> cases h4 <;>
    simp [listenResource, hrt, hml, hl, registerHandlers, hc, AList.lookup_insert,
      registerOnAdd, registerOnUpdate, registerOnDelete, registerOnCntChanged, newK8sLister]

/-! ## Claims -/

/-- C1 (as stated, refuted): from the empty cache, the single call
`update(podA, podB)` stores `podB` and leaves `cnt` at 0, so the reached state
has one entry and count zero. -/
theorem cnt_ne_size_after_update_of_unknown :
    klEmpty.m = ∅ ∧ klEmpty.cnt = 0 ∧
      (run klEmpty [Op.update podA podB]).cnt = 0 ∧
      SyncMap.size (run klEmpty [Op.update podA podB]).m = 1 ∧
      ¬ ((run klEmpty [Op.update podA podB]).cnt =
          (SyncMap.size (run klEmpty [Op.update podA podB]).m : Int)) :=
  ⟨rfl, rfl, by decide, by decide, by decide⟩

/-- C1 (amended): in every cache state reached from an empty cache (no
entries, `cnt = 0`) by a finite sequence of `add`, `delete` and `update`
calls, each `update` replacing one entry by one entry in the state it is made
in, `cnt` equals the number of entries of the map. -/
theorem cnt_eq_size_of_admissible (kl : k8sLister) (ops : List Op)
    (hm : kl.m = ∅) (hc : kl.cnt = 0) (hadm : admissible kl ops = true) :
    (run kl ops).cnt = (SyncMap.size (run kl ops).m : Int) := by
  apply run_keeps_cnt_size ops kl _ hadm
  rw [hm, hc]; rfl

/-- C1, at a concrete sequence: add `a`, add `b`, replace `a`, delete `b`,
delete `b` again, add `a` again. -/
theorem cnt_eq_size_of_admissible_witness :
    admissible klEmpty [Op.add podA, Op.add podB, Op.update podA podA1, Op.delete podB,
        Op.delete podB, Op.add podA] = true ∧
      (run klEmpty [Op.add podA, Op.add podB, Op.update podA podA1, Op.delete podB,
        Op.delete podB, Op.add podA]).cnt =
      (SyncMap.size (run klEmpty [Op.add podA, Op.add podB, Op.update podA podA1,
        Op.delete podB, Op.delete podB, Op.add podA]).m : Int) :=
  ⟨by decide, cnt_eq_size_of_admissible klEmpty _ rfl rfl (by decide)⟩

/-- C2: on a lister on which `bind` installed the handlers, with
`match(x) = selector.Matches(labels(x))` taken on the labels `x.Labels` of the
object itself: a raw add of `obj` is `add(obj)` if `match(obj)` and otherwise
leaves the cache unchanged with no callback, and so for a raw delete; a raw
update `(old, new)` is `update(old, new)` when both match, `delete(old)` when
only `old` matches, `add(new)` when only `new` matches, and nothing when
neither does.  This is the specification's translator `specTranslate`,
and it is what `AddFunc`, `UpdateFunc` and `DeleteFunc` return, without a
panic, when the informer hands them the objects. -/
theorem handle_eq_specTranslate (Matches : labels.Set → labels.Set → Bool)
    (kl : k8sLister) (hbind : bind kl = Except.ok ()) :
    (∀ ev, handle Matches kl ev =
        specApply kl (specTranslate (fun x => Matches kl.labels x.Labels) ev)) ∧
      (∀ obj, AddFunc Matches kl (Delivered.object obj) =
        Except.ok (specApply kl
          (specTranslate (fun x => Matches kl.labels x.Labels) (RawEvent.add obj)))) ∧
      (∀ oldObj newObj,
        UpdateFunc Matches kl (Delivered.object oldObj) (Delivered.object newObj) =
          Except.ok (specApply kl
            (specTranslate (fun x => Matches kl.labels x.Labels)
              (RawEvent.update oldObj newObj)))) ∧
      (∀ obj, DeleteFunc Matches kl (Delivered.object obj) =
        Except.ok (specApply kl
          (specTranslate (fun x => Matches kl.labels x.Labels) (RawEvent.delete obj)))) := by
  have hv := tag_of_bind hbind
  have hf : (fun x => Matches kl.labels (getResourceLabels kl x)) =
      (fun x => Matches kl.labels x.Labels) := by
    funext x
    have hl : getResourceLabels kl x = x.Labels := by
      unfold getResourceLabels
      split_ifs with t1 t2 t3
      · rfl
      · rfl
      · rfl
      · rcases hv with hv | hv | hv
        · exact absurd hv t1
        · exact absurd hv t2
        · exact absurd hv t3
    rw [hl]
  have hmain : ∀ ev, handle Matches kl ev =
      specApply kl (specTranslate (fun x => Matches kl.labels x.Labels) ev) := by
    intro ev
    rw [← hf]
    cases ev with
    | add obj =>
      simp only [handle, AddFuncOn, filterResource, specTranslate]
      split <;> rfl
    | delete obj =>
      simp only [handle, DeleteFuncOn, specTranslate]
      split <;> rfl
    | update oldObj newObj =>
      cases ho : Matches kl.labels (getResourceLabels kl oldObj) <;>
        cases hn : Matches kl.labels (getResourceLabels kl newObj) <;>
        simp [handle, UpdateFuncOn, filterResource, specTranslate, specApply, step, ho, hn]
  refine ⟨hmain, ?_, ?_, ?_⟩
  · intro obj
    rw [AddFunc_object, hmain]
  · intro oldObj newObj
    rw [UpdateFunc_object, hmain]
  · intro obj
    rw [DeleteFunc_object, hmain]

/-- C2, at the pod cache holding `podA` (selector `run=api`): each case of
the translation, with the callbacks of a raw add and of a raw update that
leaves the selector. -/
theorem handle_eq_specTranslate_witness :
    handle setMatches klA (RawEvent.add podB) = add klA podB ∧
      handle setMatches klA (RawEvent.add podBOther) = (klA, []) ∧
      handle setMatches klA (RawEvent.update podA podA1) = update klA podA podA1 ∧
      handle setMatches klA (RawEvent.update podA podAOther) = delete klA podA ∧
      handle setMatches klA (RawEvent.update podBOther podB) = add klA podB ∧
      handle setMatches klA (RawEvent.update podBOther podAOther) = (klA, []) ∧
      handle setMatches klA (RawEvent.delete podA1) = delete klA podA1 ∧
      handle setMatches klA (RawEvent.delete podAOther) = (klA, []) ∧
      AddFunc setMatches klA (Delivered.object podB) = Except.ok (add klA podB) ∧
      UpdateFunc setMatches klA (Delivered.object podA) (Delivered.object podAOther) =
        Except.ok (delete klA podA) ∧
      DeleteFunc setMatches klA (Delivered.object podAOther) = Except.ok (klA, []) ∧
      (handle setMatches klA (RawEvent.add podB)).2 =
        [Call.onAdd podB, Call.onCntChanged 2] ∧
      (handle setMatches klA (RawEvent.update podA podAOther)).2 =
        [Call.onDelete podA, Call.onCntChanged 0] :=
  have h := handle_eq_specTranslate setMatches klA rfl
  ⟨h.1 (RawEvent.add podB), h.1 (RawEvent.add podBOther),
    h.1 (RawEvent.update podA podA1), h.1 (RawEvent.update podA podAOther),
    h.1 (RawEvent.update podBOther podB), h.1 (RawEvent.update podBOther podAOther),
    h.1 (RawEvent.delete podA1), h.1 (RawEvent.delete podAOther),
    h.2.1 podB, h.2.2.1 podA podAOther, h.2.2.2 podAOther, by decide, by decide⟩

/-- C3: in every cache state, reached from an empty cache by `add`, `update`
and `delete` calls, in which the matching object `O` is stored under its
name, a raw update `(O, O1)` whose new object does not match invokes
`onDelete(O)` once, then `onCntChanged` once (each when registered; a nil
slot is skipped), and nothing else; afterwards `get(name(O))` reports not
found and `list()` contains no object with that name. -/
theorem update_leaving_selector (Matches : labels.Set → labels.Set → Bool)
    (kl0 kl : k8sLister) (ops : List Op) (O O1 : Object)
    (hm : kl0.m = ∅) (hreach : kl = run kl0 ops)
    (hO : filterResource Matches kl O = true)
    (hstored : get kl (getResourceName kl O) = some O)
    (hO1 : filterResource Matches kl O1 = false) :
    (handle Matches kl (RawEvent.update O O1)).2 =
        invoke kl.onDelete (Call.onDelete O) ++
          invoke kl.onCntChanged (Call.onCntChanged (kl.cnt - 1)) ∧
      get (handle Matches kl (RawEvent.update O O1)).1 (getResourceName kl O) = none ∧
      ∀ x ∈ list (handle Matches kl (RawEvent.update O O1)).1,
        getResourceName (handle Matches kl (RawEvent.update O O1)).1 x ≠
          getResourceName kl O := by
  have hkeyed : Keyed kl := by
    rw [hreach]; exact run_keeps_Keyed ops kl0 (Keyed_of_empty hm)
  have hU : handle Matches kl (RawEvent.update O O1) = delete kl O := by
    simp [handle, UpdateFuncOn, hO, hO1]
  rw [hU, delete_of_present hstored]
  refine ⟨rfl, AList.lookup_erase _ _, ?_⟩
  intro x hx
  simp only [list, SyncMap.RangeValues, List.mem_map] at hx
  obtain ⟨e, he, rfl⟩ := hx
  obtain ⟨hmem, hne⟩ := mem_entries_erase he
  have hk : getResourceName kl e.2 = e.1 := hkeyed e hmem
  have hc : getResourceName
      { kl with m := AList.erase (getResourceName kl O) kl.m, cnt := kl.cnt - 1 } e.2 =
      getResourceName kl e.2 := getResourceName_congr rfl e.2
  rw [hc, hk]; exact hne

/-- C3, at the cache reached by `add(podA)`, `add(podB)` and the raw update
of `podA` to labels `run=other`: `podB` stays listed. -/
theorem update_leaving_selector_witness :
    (handle setMatches (run klEmpty [Op.add podA, Op.add podB])
        (RawEvent.update podA podAOther)).2 = [Call.onDelete podA, Call.onCntChanged 1] ∧
      get (handle setMatches (run klEmpty [Op.add podA, Op.add podB])
        (RawEvent.update podA podAOther)).1 "a" = none ∧
      ∀ x ∈ list (handle setMatches (run klEmpty [Op.add podA, Op.add podB])
          (RawEvent.update podA podAOther)).1,
        getResourceName (handle setMatches (run klEmpty [Op.add podA, Op.add podB])
          (RawEvent.update podA podAOther)).1 x ≠ "a" :=
  update_leaving_selector setMatches klEmpty (run klEmpty [Op.add podA, Op.add podB])
    [Op.add podA, Op.add podB] podA podAOther rfl rfl (by decide) (by decide) (by decide)

/-- C4 (as stated, refuted): the cache holds `podA` under the name `a`; the
raw update `(podAOther, podA1)` has a non-matching old object and a matching
new one, whose name is already a key: the only callback is
`onUpdate(podA, podA1)`, neither `onAdd` nor `onCntChanged` is invoked. -/
theorem update_entering_selector_known_name :
    filterResource setMatches klA podAOther = false ∧
      filterResource setMatches klA podA1 = true ∧
      klA.onAdd = some 1 ∧ klA.onCntChanged = some 4 ∧
      (handle setMatches klA (RawEvent.update podAOther podA1)).2 = [Call.onUpdate podA podA1] :=
  ⟨by decide, by decide, rfl, rfl, by decide⟩

/-- C4 (amended): for a raw update `(oldObj, newObj)` whose old object does
not match and whose new object does: when the name of the new object is not a
key of the map, `onAdd(newObj)` is invoked once, then `onCntChanged` once
(each when registered), and `onUpdate` is not invoked; when that name is
already a key, the only callback is `onUpdate(stored, newObj)`. -/
theorem update_entering_selector (Matches : labels.Set → labels.Set → Bool)
    (kl : k8sLister) (oldObj newObj : Object)
    (hold : filterResource Matches kl oldObj = false)
    (hnew : filterResource Matches kl newObj = true) :
    (get kl (getResourceName kl newObj) = none →
        (handle Matches kl (RawEvent.update oldObj newObj)).2 =
            invoke kl.onAdd (Call.onAdd newObj) ++
              invoke kl.onCntChanged (Call.onCntChanged (kl.cnt + 1)) ∧
          ∀ a b, Call.onUpdate a b ∉ (handle Matches kl (RawEvent.update oldObj newObj)).2) ∧
      (∀ stored, get kl (getResourceName kl newObj) = some stored →
        (handle Matches kl (RawEvent.update oldObj newObj)).2 =
          invoke kl.onUpdate (Call.onUpdate stored newObj)) := by
  have hU : handle Matches kl (RawEvent.update oldObj newObj) = add kl newObj := by
    simp [handle, UpdateFuncOn, hold, hnew]
  rw [hU]
  refine ⟨?_, ?_⟩
  · intro habs
    rw [add_of_absent habs]
    refine ⟨rfl, ?_⟩
    intro a b hmem
    cases hA : kl.onAdd <;> cases hC : kl.onCntChanged <;>
      simp [invoke, hA, hC] at hmem
  · intro stored hst
    rw [add_of_present hst]

/-- C4, at the empty cache: `podB` enters the selector. -/
theorem update_entering_selector_witness :
    (get klEmpty "b" = none →
        (handle setMatches klEmpty (RawEvent.update podBOther podB)).2 =
            [Call.onAdd podB, Call.onCntChanged 1] ∧
          ∀ a b, Call.onUpdate a b ∉
            (handle setMatches klEmpty (RawEvent.update podBOther podB)).2) ∧
      (∀ stored, get klEmpty "b" = some stored →
        (handle setMatches klEmpty (RawEvent.update podBOther podB)).2 =
          [Call.onUpdate stored podB]) :=
  update_entering_selector setMatches klEmpty podBOther podB (by decide) (by decide)

/-- C5: when the name of `obj` is already a key, `add(obj)` leaves the whole
cache (the map, the object stored under that name, `cnt`) unchanged and its
only callback is `onUpdate(stored, obj)` (when registered); so after
`add(first)` and any further `add` calls, an `add(second)` for the name of
`first` leaves the cache, `list()` included, as it was, and what is stored
under that name is still what the first `add` left there. -/
theorem add_of_known_name (kl : k8sLister) (obj stored : Object)
    (h : get kl (getResourceName kl obj) = some stored) :
    add kl obj = (kl, invoke kl.onUpdate (Call.onUpdate stored obj)) ∧
      list (add kl obj).1 = list kl ∧
      ∀ (first : Object) (mids : List Object) (kl0 : k8sLister),
        kl = run (add kl0 first).1 (mids.map Op.add) →
        getResourceName kl0 first = getResourceName kl obj →
        (get kl0 (getResourceName kl0 first) = none → stored = first) ∧
          get (add kl obj).1 (getResourceName kl obj) =
            get (add kl0 first).1 (getResourceName kl0 first) := by
  have hadd := add_of_present h
  refine ⟨hadd, by rw [hadd], ?_⟩
  intro first mids kl0 hkl hname
  obtain ⟨_, _, hframe⟩ := run_adds_frame mids (add kl0 first).1
  rw [hadd]
  obtain ⟨v, hv⟩ := add_lookup_self kl0 first
  have hv2 := hframe _ _ hv
  rw [← hkl, hname] at hv2
  have hsv : stored = v := by
    rw [get_eq_lookup, hv2] at h
    exact (Option.some.inj h).symm
  refine ⟨?_, ?_⟩
  · intro habs
    rw [add_of_absent habs] at hv
    simp only [AList.lookup_insert] at hv
    rw [hsv]; exact (Option.some.inj hv).symm
  · rw [get_eq_lookup, get_eq_lookup, hv2, hv]

/-- C5, at `add(podA)`, `add(podB)`, then `add(podA1)` for the name `a`. -/
theorem add_of_known_name_witness :
    add (run (add klEmpty podA).1 ([podB].map Op.add)) podA1 =
        (run (add klEmpty podA).1 ([podB].map Op.add), [Call.onUpdate podA podA1]) ∧
      list (add (run (add klEmpty podA).1 ([podB].map Op.add)) podA1).1 =
        list (run (add klEmpty podA).1 ([podB].map Op.add)) ∧
      get (add (run (add klEmpty podA).1 ([podB].map Op.add)) podA1).1 "a" = some podA :=
  have h := add_of_known_name (run (add klEmpty podA).1 ([podB].map Op.add)) podA1 podA
    (by decide)
  ⟨h.1, h.2.1, (h.2.2 podA [podB] klEmpty rfl (by decide)).2.trans (by decide)⟩

/-- C6: when the name of `obj` is not a key, `add(obj)` stores `obj` under
that name, leaves every other key as it was, increases `cnt` by exactly 1,
and invokes `onAdd(obj)` and then `onCntChanged(new cnt)` (each when
registered) and no other callback. -/
theorem add_of_fresh_name (kl : k8sLister) (obj : Object)
    (h : getResourceName kl obj ∉ kl.m) :
    get (add kl obj).1 (getResourceName kl obj) = some obj ∧
      (∀ k, k ≠ getResourceName kl obj → get (add kl obj).1 k = get kl k) ∧
      (add kl obj).1.cnt = kl.cnt + 1 ∧
      SyncMap.size (add kl obj).1.m = SyncMap.size kl.m + 1 ∧
      (add kl obj).2 =
        invoke kl.onAdd (Call.onAdd obj) ++
          invoke kl.onCntChanged (Call.onCntChanged ((add kl obj).1.cnt)) := by
  rw [add_of_absent (AList.lookup_eq_none.2 h)]
  refine ⟨AList.lookup_insert _, ?_, rfl, SyncMap.size_insert_of_not_mem obj h, rfl⟩
  intro k hk
  exact AList.lookup_insert_ne hk

/-- C6, at the empty cache and `podA`. -/
theorem add_of_fresh_name_witness :
    get (add klEmpty podA).1 "a" = some podA ∧
      (∀ k, k ≠ "a" → get (add klEmpty podA).1 k = get klEmpty k) ∧
      (add klEmpty podA).1.cnt = 0 + 1 ∧
      SyncMap.size (add klEmpty podA).1.m = 0 + 1 ∧
      (add klEmpty podA).2 = [Call.onAdd podA, Call.onCntChanged 1] :=
  add_of_fresh_name klEmpty podA (by decide)

/-- C7: when the name of `obj` is a key, `delete(obj)` removes that entry,
leaves every other key as it was, decreases `cnt` by exactly 1, and invokes
`onDelete(obj)` and then `onCntChanged(new cnt)` (each when registered) and
no other callback; afterwards `get(name(obj))` reports not found. -/
theorem delete_of_known_name (kl : k8sLister) (obj : Object)
    (h : getResourceName kl obj ∈ kl.m) :
    get (delete kl obj).1 (getResourceName kl obj) = none ∧
      (∀ k, k ≠ getResourceName kl obj → get (delete kl obj).1 k = get kl k) ∧
      (delete kl obj).1.cnt = kl.cnt - 1 ∧
      SyncMap.size (delete kl obj).1.m + 1 = SyncMap.size kl.m ∧
      (delete kl obj).2 =
        invoke kl.onDelete (Call.onDelete obj) ++
          invoke kl.onCntChanged (Call.onCntChanged ((delete kl obj).1.cnt)) := by
  obtain ⟨stored, hs⟩ := Option.isSome_iff_exists.1 (AList.lookup_isSome.2 h)
  rw [delete_of_present hs]
  refine ⟨AList.lookup_erase _ _, ?_, rfl, SyncMap.size_erase_of_mem h, rfl⟩
  intro k hk
  exact AList.lookup_erase_ne hk

/-- C7, at the cache holding `podA`, deleted through the later version
`podA1` of the same name. -/
theorem delete_of_known_name_witness :
    get (delete klA podA1).1 "a" = none ∧
      (∀ k, k ≠ "a" → get (delete klA podA1).1 k = get klA k) ∧
      (delete klA podA1).1.cnt = 1 - 1 ∧
      SyncMap.size (delete klA podA1).1.m + 1 = 1 ∧
      (delete klA podA1).2 = [Call.onDelete podA1, Call.onCntChanged 0] :=
  delete_of_known_name klA podA1 (by decide)

/-- C8: when the name of `obj` is not a key, `delete(obj)` returns the cache
as it was (map and `cnt` included) with no callback invoked, and so does the
raw delete that hands `obj` to `DeleteFunc`, matching or not: the handler
returns, without a panic (it has no error result), the same cache and no
callback. -/
theorem delete_of_unknown_name (Matches : labels.Set → labels.Set → Bool)
    (kl : k8sLister) (obj : Object) (h : getResourceName kl obj ∉ kl.m) :
    delete kl obj = (kl, []) ∧
      DeleteFunc Matches kl (Delivered.object obj) = Except.ok (kl, []) ∧
      DeleteFuncOn Matches kl obj = (kl, []) ∧
      handle Matches kl (RawEvent.delete obj) = (kl, []) := by
  have hd := delete_of_absent (AList.lookup_eq_none.2 h)
  have hD : DeleteFuncOn Matches kl obj = (kl, []) := by
    simp only [DeleteFuncOn, hd, ite_self]
  have hh : handle Matches kl (RawEvent.delete obj) = (kl, []) := hD
  exact ⟨hd, by rw [DeleteFunc_object, hh], hD, hh⟩

/-- C8, at the cache holding `podA` and the unknown pods `podB` (matching)
and `podBOther` (not matching). -/
theorem delete_of_unknown_name_witness :
    (delete klA podB = (klA, []) ∧
        DeleteFunc setMatches klA (Delivered.object podB) = Except.ok (klA, []) ∧
        DeleteFuncOn setMatches klA podB = (klA, []) ∧
        handle setMatches klA (RawEvent.delete podB) = (klA, [])) ∧
      (delete klA podBOther = (klA, []) ∧
        DeleteFunc setMatches klA (Delivered.object podBOther) = Except.ok (klA, []) ∧
        DeleteFuncOn setMatches klA podBOther = (klA, []) ∧
        handle setMatches klA (RawEvent.delete podBOther) = (klA, [])) :=
  ⟨delete_of_unknown_name setMatches klA podB (by decide),
    delete_of_unknown_name setMatches klA podBOther (by decide)⟩

/-- C9: `update(oldObj, newObj)` yields a map in which the name of `newObj`
maps to `newObj`, the name of `oldObj` is absent whenever it differs from the
name of `newObj`, and every other key is as it was; `cnt` is unchanged; and
the only callback is `onUpdate(oldObj, newObj)`.  The name is the one
`getResourceName` reads, which for a lister of one of the three resource
types is the object's `Name`; the callback is invoked exactly once when a
handler is registered, and not at all when the slot is nil. -/
theorem update_effect (kl : k8sLister) (oldObj newObj : Object) :
    get (update kl oldObj newObj).1 (getResourceName kl newObj) = some newObj ∧
      (getResourceName kl oldObj ≠ getResourceName kl newObj →
        get (update kl oldObj newObj).1 (getResourceName kl oldObj) = none) ∧
      (∀ k, k ≠ getResourceName kl oldObj → k ≠ getResourceName kl newObj →
        get (update kl oldObj newObj).1 k = get kl k) ∧
      (update kl oldObj newObj).1.cnt = kl.cnt ∧
      (update kl oldObj newObj).2 = invoke kl.onUpdate (Call.onUpdate oldObj newObj) ∧
      (kl.t = ResourceNode ∨ kl.t = ResourcePod ∨ kl.t = ResourceDeployment →
        get (update kl oldObj newObj).1 newObj.Name = some newObj ∧
        (oldObj.Name ≠ newObj.Name → get (update kl oldObj newObj).1 oldObj.Name = none) ∧
        ∀ k, k ≠ oldObj.Name → k ≠ newObj.Name →
          get (update kl oldObj newObj).1 k = get kl k) ∧
      (∀ f, kl.onUpdate = some f →
        (update kl oldObj newObj).2 = [Call.onUpdate oldObj newObj]) ∧
      (kl.onUpdate = none → (update kl oldObj newObj).2 = []) := by
  have h1 : get (update kl oldObj newObj).1 (getResourceName kl newObj) = some newObj := by
    rw [update_eq]; exact AList.lookup_insert _
  have h2 : getResourceName kl oldObj ≠ getResourceName kl newObj →
      get (update kl oldObj newObj).1 (getResourceName kl oldObj) = none := by
    intro hne
    rw [update_eq]
    simp only [get_eq_lookup, AList.lookup_insert_ne hne, AList.lookup_erase]
  have h3 : ∀ k, k ≠ getResourceName kl oldObj → k ≠ getResourceName kl newObj →
      get (update kl oldObj newObj).1 k = get kl k := by
    intro k ho hn
    rw [update_eq]
    simp only [get_eq_lookup, AList.lookup_insert_ne hn, AList.lookup_erase_ne ho]
  refine ⟨h1, h2, h3, rfl, rfl, ?_, ?_, ?_⟩
  · intro hv
    have hname : ∀ x : Object, getResourceName kl x = x.Name := by
      intro x
      unfold getResourceName
      split_ifs with t1 t2 t3
      · rfl
      · rfl
      · rfl
      · rcases hv with hv | hv | hv
        · exact absurd hv t1
        · exact absurd hv t2
        · exact absurd hv t3
    have hn := hname newObj
    have ho := hname oldObj
    rw [hn] at h1 h2 h3
    rw [ho] at h2 h3
    exact ⟨h1, h2, h3⟩
  · intro f hf
    rw [update_eq]
    simp only [hf, invoke]
  · intro hf
    rw [update_eq]
    simp only [hf, invoke]

/-- C9, at the pod cache holding `podA` with its handlers registered: the
rename `update(podA, podB)` and the replacement `update(podA, podA1)`. -/
theorem update_effect_witness :
    (get (update klA podA podB).1 "b" = some podB ∧
        get (update klA podA podB).1 "a" = none ∧
        (update klA podA podB).1.cnt = 1 ∧
        (update klA podA podB).2 = [Call.onUpdate podA podB]) ∧
      (get (update klA podA podA1).1 "a" = some podA1 ∧
        (update klA podA podA1).1.cnt = 1 ∧
        (update klA podA podA1).2 = [Call.onUpdate podA podA1]) :=
  have hb := update_effect klA podA podB
  have ha := update_effect klA podA podA1
  ⟨⟨(hb.2.2.2.2.2.1 (Or.inr (Or.inl rfl))).1,
      (hb.2.2.2.2.2.1 (Or.inr (Or.inl rfl))).2.1 (by decide),
      hb.2.2.2.1, hb.2.2.2.2.2.2.1 2 rfl⟩,
    ⟨(ha.2.2.2.2.2.1 (Or.inr (Or.inl rfl))).1, ha.2.2.2.1, ha.2.2.2.2.2.2.1 2 rfl⟩⟩

/-- C10 (as stated, refuted): in the empty cache the name of `podA` is not a
key, yet `update(podA, podB)` stores `podB`: `get("b")` was not found before
and finds `podB` after, the map has one entry instead of none, and `cnt` is
still 0. -/
theorem update_of_unknown_old_stores_new :
    getResourceName klEmpty podA ∉ klEmpty.m ∧
      get klEmpty "b" = none ∧
      get (update klEmpty podA podB).1 "b" = some podB ∧
      SyncMap.size klEmpty.m = 0 ∧
      SyncMap.size (update klEmpty podA podB).1.m = 1 ∧
      (update klEmpty podA podB).1.cnt = 0 ∧
      (update klEmpty podA podB).1.m ≠ klEmpty.m := by
  refine ⟨by decide, by decide, by decide, by decide, by decide, by decide, ?_⟩
  intro h
  have hs : SyncMap.size (update klEmpty podA podB).1.m = SyncMap.size klEmpty.m := by rw [h]
  revert hs
  decide

/-- C10 (amended): when the name of `oldObj` is not a key, `update(oldObj,
newObj)` removes nothing and leaves `cnt` and every key other than the name of
`newObj` as they were, but it stores `newObj` under its name: the map is the
old map with that one binding set, so the number of entries is unchanged when
the name of `newObj` was a key and grows by one when it was not. -/
theorem update_of_unknown_old (kl : k8sLister) (oldObj newObj : Object)
    (h : getResourceName kl oldObj ∉ kl.m) :
    (update kl oldObj newObj).1.m = SyncMap.Store kl.m (getResourceName kl newObj) newObj ∧
      get (update kl oldObj newObj).1 (getResourceName kl newObj) = some newObj ∧
      (∀ k, k ≠ getResourceName kl newObj → get (update kl oldObj newObj).1 k = get kl k) ∧
      (update kl oldObj newObj).1.cnt = kl.cnt ∧
      SyncMap.size (update kl oldObj newObj).1.m =
        (if getResourceName kl newObj ∈ kl.m then SyncMap.size kl.m
          else SyncMap.size kl.m + 1) := by
  have hm : (update kl oldObj newObj).1.m =
      AList.insert (getResourceName kl newObj) newObj kl.m := by
    rw [update_eq]
    exact congrArg (AList.insert (getResourceName kl newObj) newObj)
      (SyncMap.erase_of_not_mem h)
  refine ⟨hm, ?_, ?_, rfl, ?_⟩
  · rw [get_eq_lookup, hm]; exact AList.lookup_insert _
  · intro k hk
    rw [get_eq_lookup, hm]; exact AList.lookup_insert_ne hk
  · rw [hm]
    split
    · next hin => exact SyncMap.size_insert_of_mem newObj hin
    · next hnin => exact SyncMap.size_insert_of_not_mem newObj hnin

/-- C10, at the cache holding `podA` and the call `update(podB, podA1)`,
whose old name `b` is unknown and whose new name `a` is a key. -/
theorem update_of_unknown_old_witness :
    (update klA podB podA1).1.m = SyncMap.Store klA.m "a" podA1 ∧
      get (update klA podB podA1).1 "a" = some podA1 ∧
      (∀ k, k ≠ "a" → get (update klA podB podA1).1 k = get klA k) ∧
      (update klA podB podA1).1.cnt = klA.cnt ∧
      SyncMap.size (update klA podB podA1).1.m =
        (if "a" ∈ klA.m then SyncMap.size klA.m else SyncMap.size klA.m + 1) :=
  update_of_unknown_old klA podB podA1 (by decide)

/-- C11: from an empty cache, for every object `p` whose labels match the
selector, the raw add of `p` invokes `onAdd(p)` once and then
`onCntChanged(1)` (each when registered), makes `cnt = 1` and
`list() = [p]`; the raw delete of `p` that follows invokes `onDelete(p)` and
then `onCntChanged(0)`, makes `cnt = 0` and `list()` empty, and the cache is
again the initial one. -/
theorem add_then_delete_round_trip (Matches : labels.Set → labels.Set → Bool)
    (kl : k8sLister) (p : Object) (hm : kl.m = ∅) (hc : kl.cnt = 0)
    (hp : filterResource Matches kl p = true) :
    (handle Matches kl (RawEvent.add p)).2 =
        invoke kl.onAdd (Call.onAdd p) ++ invoke kl.onCntChanged (Call.onCntChanged 1) ∧
      (handle Matches kl (RawEvent.add p)).1.cnt = 1 ∧
      list (handle Matches kl (RawEvent.add p)).1 = [p] ∧
      (handle Matches (handle Matches kl (RawEvent.add p)).1 (RawEvent.delete p)).2 =
        invoke kl.onDelete (Call.onDelete p) ++
          invoke kl.onCntChanged (Call.onCntChanged 0) ∧
      (handle Matches (handle Matches kl (RawEvent.add p)).1 (RawEvent.delete p)).1.cnt = 0 ∧
      list (handle Matches (handle Matches kl (RawEvent.add p)).1 (RawEvent.delete p)).1 = [] ∧
      (handle Matches (handle Matches kl (RawEvent.add p)).1 (RawEvent.delete p)).1 = kl := by
  have habs : AList.lookup (getResourceName kl p) kl.m = none := by
    rw [hm]; exact AList.lookup_empty _
  have hA : handle Matches kl (RawEvent.add p) = add kl p := by
    simp [handle, AddFuncOn, hp]
  have hD : ∀ kl1 : k8sLister, kl1.t = kl.t → kl1.labels = kl.labels →
      handle Matches kl1 (RawEvent.delete p) = delete kl1 p := by
    intro kl1 ht hl
    have := filterResource_congr Matches ht hl p
    rw [hp] at this
    simp only [filterResource] at this
    simp [handle, DeleteFuncOn, this]
  have hpres : AList.lookup
      (getResourceName
        { kl with m := AList.insert (getResourceName kl p) p kl.m, cnt := kl.cnt + 1 } p)
      ({ kl with m := AList.insert (getResourceName kl p) p kl.m, cnt := kl.cnt + 1 } :
        k8sLister).m = some p := AList.lookup_insert _
  have herase : AList.erase (getResourceName kl p)
      (AList.insert (getResourceName kl p) p kl.m) = kl.m := by
    rw [hm]
    apply AList.ext
    simp [AList.insert_entries, AList.erase]
  have hname : getResourceName
      { kl with m := AList.insert (getResourceName kl p) p kl.m, cnt := kl.cnt + 1 } p =
      getResourceName kl p := getResourceName_congr rfl p
  have hD1 := hD
    { kl with m := AList.insert (getResourceName kl p) p kl.m, cnt := kl.cnt + 1 } rfl rfl
  rw [hA, add_of_absent habs]
  dsimp only
  rw [hD1, delete_of_present hpres]
  dsimp only
  rw [hname, herase, hc]
  refine ⟨rfl, rfl, ?_, rfl, rfl, ?_, ?_⟩
  · simp [list, SyncMap.RangeValues, AList.insert_entries, hm]
  · simp [list, SyncMap.RangeValues, hm]
  · obtain ⟨t, m, cnt, ls, a, u, d, c⟩ := kl
    simp only at hc
    subst hc
    rfl

/-- C11, at the empty pod cache for `run=api` and `podA`. -/
theorem add_then_delete_round_trip_witness :
    (handle setMatches klEmpty (RawEvent.add podA)).2 =
        [Call.onAdd podA, Call.onCntChanged 1] ∧
      (handle setMatches klEmpty (RawEvent.add podA)).1.cnt = 1 ∧
      list (handle setMatches klEmpty (RawEvent.add podA)).1 = [podA] ∧
      (handle setMatches (handle setMatches klEmpty (RawEvent.add podA)).1
          (RawEvent.delete podA)).2 = [Call.onDelete podA, Call.onCntChanged 0] ∧
      (handle setMatches (handle setMatches klEmpty (RawEvent.add podA)).1
          (RawEvent.delete podA)).1.cnt = 0 ∧
      list (handle setMatches (handle setMatches klEmpty (RawEvent.add podA)).1
          (RawEvent.delete podA)).1 = [] ∧
      (handle setMatches (handle setMatches klEmpty (RawEvent.add podA)).1
          (RawEvent.delete podA)).1 = klEmpty :=
  add_then_delete_round_trip setMatches klEmpty podA rfl rfl (by decide)

/-- C12 (the code at the failing input): in the registry where the key
`run=api` is bound to a pod lister by `ListenPod`, `ListenNode` for the same
key panics with `PanicInvalidResourceType`; the listers are untouched, but
the resource type recorded for the key is `node` and no longer `pod`. -/
theorem listenNode_on_pod_key :
    klgPod.map (fun g => resourceTypeAt g "run=api") = some (some ResourcePod) ∧
      (ListenNode setString klgPod selApi (some 5) (some 6) (some 7) (some 8)).2 =
        Exit.panicked PanicInvalidResourceType ∧
      (ListenNode setString klgPod selApi (some 5) (some 6) (some 7) (some 8)).1.map
          (fun g => resourceTypeAt g "run=api") = some (some ResourceNode) ∧
      (ListenNode setString klgPod selApi (some 5) (some 6) (some 7) (some 8)).1.map
          (fun g => g.mLister) = klgPod.map (fun g => g.mLister) :=
  ⟨by decide, by decide, by decide, rfl⟩

/-- C13 (the code at the failing input): in the registry where the key
`run=api` is bound to a pod lister by `ListenPod`, a second `ListenPod` for
the same key does not return: it panics with `PanicInvalidResourceType`, and
no callback slot is replaced. -/
theorem listenPod_twice :
    (ListenPod setString (some (NewK8sListerGroup "dsp-ns")) selApi
        (some 1) (some 2) (some 3) (some 4)).2 = Exit.returned none ∧
      (ListenPod setString klgPod selApi (some 5) none none none).2 =
        Exit.panicked PanicInvalidResourceType ∧
      (ListenPod setString klgPod selApi (some 5) none none none).1.map
          (fun g => g.mLister) = klgPod.map (fun g => g.mLister) ∧
      klgPod.map (fun g => (bindingOf g "run=api").2.map (fun b => b.2.onAdd)) =
        some (some (some 1)) :=
  ⟨by decide, by decide, rfl, by decide⟩

/-- C14 (as stated, refuted): the zero value `new(K8sListerGroup)` is a
non-nil registry in which no key is bound, and `ListenPod`, `ListenNode` and
`ListenDeployment` panic on it at the write `klg.resourceType[labelsStr] = ...`
to the nil map. -/
theorem listen_on_zero_value_registry :
    bindingOf zeroListerGroup "run=api" = (none, none) ∧
      (ListenPod setString (some zeroListerGroup) selApi (some 1) (some 2) (some 3)
        (some 4)).2 = Exit.panicked panicNilMap ∧
      (ListenNode setString (some zeroListerGroup) selApi (some 1) (some 2) (some 3)
        (some 4)).2 = Exit.panicked panicNilMap ∧
      (ListenDeployment setString (some zeroListerGroup) selApi (some 1) (some 2) (some 3)
        (some 4)).2 = Exit.panicked panicNilMap :=
  ⟨rfl, by decide, by decide, by decide⟩

/-- C14 (amended): for a registry whose two maps are made (as
`NewK8sListerGroup` makes them) and a selector key that holds no lister,
`ListenPod` (resp. `ListenNode`, `ListenDeployment`) returns no error, records
the resource type `pod` (resp. `node`, `deployment`) for the key, binds the
key to a lister of that type with that tag and the selector given, with no
entries (`list()` empty, size 0), `cnt = 0` and the four callback slots equal
to the handlers supplied, and leaves every other key of both maps as it
was. -/
theorem listen_on_unbound_key (labelsStr : labels.Set → String) (g : K8sListerGroup)
    (rt : AList (fun _ : String => K8sResourceType)) (ml : AList (fun _ : String => Any))
    (ls : labels.Set) (h1 h2 h3 h4 : Option Handler)
    (hrt : g.resourceType = some rt) (hml : g.mLister = some ml)
    (hu : labelsStr ls ∉ ml) :
    (∃ g1 kl1, ListenPod labelsStr (some g) ls h1 h2 h3 h4 = (some g1, Exit.returned none) ∧
        bindingOf g1 (labelsStr ls) = (some ResourcePod, some (TypeArg.Pod, kl1)) ∧
        (kl1.t, kl1.labels, list kl1, SyncMap.size kl1.m, kl1.cnt, kl1.onAdd, kl1.onUpdate,
          kl1.onDelete, kl1.onCntChanged) = (ResourcePod, ls, [], 0, 0, h1, h2, h3, h4) ∧
        ∀ k, k ≠ labelsStr ls →
          resourceTypeAt g1 k = resourceTypeAt g k ∧ listerAt g1 k = listerAt g k) ∧
      (∃ g1 kl1, ListenNode labelsStr (some g) ls h1 h2 h3 h4 =
          (some g1, Exit.returned none) ∧
        bindingOf g1 (labelsStr ls) = (some ResourceNode, some (TypeArg.Node, kl1)) ∧
        (kl1.t, kl1.labels, list kl1, SyncMap.size kl1.m, kl1.cnt, kl1.onAdd, kl1.onUpdate,
          kl1.onDelete, kl1.onCntChanged) = (ResourceNode, ls, [], 0, 0, h1, h2, h3, h4) ∧
        ∀ k, k ≠ labelsStr ls →
          resourceTypeAt g1 k = resourceTypeAt g k ∧ listerAt g1 k = listerAt g k) ∧
      (∃ g1 kl1, ListenDeployment labelsStr (some g) ls h1 h2 h3 h4 =
          (some g1, Exit.returned none) ∧
        bindingOf g1 (labelsStr ls) =
          (some ResourceDeployment, some (TypeArg.Deployment, kl1)) ∧
        (kl1.t, kl1.labels, list kl1, SyncMap.size kl1.m, kl1.cnt, kl1.onAdd, kl1.onUpdate,
          kl1.onDelete, kl1.onCntChanged) =
            (ResourceDeployment, ls, [], 0, 0, h1, h2, h3, h4) ∧
        ∀ k, k ≠ labelsStr ls →
          resourceTypeAt g1 k = resourceTypeAt g k ∧ listerAt g1 k = listerAt g k) := by
  have hother : ∀ (r : K8sResourceType) (v w : Any) (k : String), k ≠ labelsStr ls →
      resourceTypeAt { g with
          resourceType := some (AList.insert (labelsStr ls) r rt),
          mLister := some (AList.insert (labelsStr ls) v
            (AList.insert (labelsStr ls) w ml)) } k = resourceTypeAt g k ∧
        listerAt { g with
          resourceType := some (AList.insert (labelsStr ls) r rt),
          mLister := some (AList.insert (labelsStr ls) v
            (AList.insert (labelsStr ls) w ml)) } k = listerAt g k := by
    intro r v w k hk
    simp only [resourceTypeAt, listerAt, hrt, hml, Option.some_bind,
      AList.lookup_insert_ne hk, and_self]
  refine ⟨⟨_, { newK8sLister ResourcePod ls with
        onAdd := h1, onUpdate := h2, onDelete := h3, onCntChanged := h4 },
      listenResource_of_unbound labelsStr TypeArg.Pod ResourcePod g ls rt ml h1 h2 h3 h4
        rfl hrt hml hu, ?_, rfl, hother _ _ _⟩,
    ⟨_, { newK8sLister ResourceNode ls with
        onAdd := h1, onUpdate := h2, onDelete := h3, onCntChanged := h4 },
      listenResource_of_unbound labelsStr TypeArg.Node ResourceNode g ls rt ml h1 h2 h3 h4
        rfl hrt hml hu, ?_, rfl, hother _ _ _⟩,
    ⟨_, { newK8sLister ResourceDeployment ls with
        onAdd := h1, onUpdate := h2, onDelete := h3, onCntChanged := h4 },
      listenResource_of_unbound labelsStr TypeArg.Deployment ResourceDeployment g ls rt ml
        h1 h2 h3 h4 rfl hrt hml hu, ?_, rfl, hother _ _ _⟩⟩
  all_goals
    simp only [bindingOf, resourceTypeAt, listerAt, Option.some_bind, AList.lookup_insert]

/-- C14, at the first registration of the package test: `ListenPod` for
`run=api` on a new registry binds the key to the empty pod lister with the
four handlers. -/
theorem listen_on_unbound_key_witness :
    ∃ g1 kl1, ListenPod setString (some (NewK8sListerGroup "dsp-ns")) selApi
        (some 1) (some 2) (some 3) (some 4) = (some g1, Exit.returned none) ∧
      bindingOf g1 "run=api" = (some "pod", some (TypeArg.Pod, kl1)) ∧
      (kl1.t, kl1.labels, list kl1, SyncMap.size kl1.m, kl1.cnt, kl1.onAdd, kl1.onUpdate,
        kl1.onDelete, kl1.onCntChanged) =
          ("pod", [("run", "api")], [], 0, 0, some 1, some 2, some 3, some 4) :=
  let ⟨g1, kl1, h1, h2, h3, _⟩ := (listen_on_unbound_key setString
    (NewK8sListerGroup "dsp-ns") ∅ ∅ selApi (some 1) (some 2) (some 3) (some 4) rfl rfl
    (AList.not_mem_empty _)).1
  ⟨g1, kl1, h1, h2, h3⟩

/-- C17: in every cache state reached from an empty cache by a finite
sequence of raw add, update and delete events handled by the handler that
`bind` installed, every object that `list()` returns (every stored object)
has labels that match the selector of the cache. -/
theorem stored_objects_match (Matches : labels.Set → labels.Set → Bool) (kl : k8sLister)
    (evs : List RawEvent) (hm : kl.m = ∅) :
    (runEvents Matches kl evs).labels = kl.labels ∧
      ∀ x ∈ list (runEvents Matches kl evs),
        filterResource Matches (runEvents Matches kl evs) x = true := by
  have h0 : AllMatch Matches kl := by
    intro e he
    rw [hm] at he
    exact absurd he (List.not_mem_nil e)
  have hall := runEvents_keeps_AllMatch Matches evs kl h0
  have hlab : ∀ (es : List RawEvent) (k : k8sLister),
      (runEvents Matches k es).labels = k.labels := by
    intro es
    induction es with
    | nil => intro k; rfl
    | cons ev es ih =>
      intro k
      exact (ih _).trans (handle_frame Matches k ev).2
  refine ⟨hlab evs kl, ?_⟩
  intro x hx
  simp only [list, SyncMap.RangeValues, List.mem_map] at hx
  obtain ⟨e, he, rfl⟩ := hx
  exact hall e he

/-- C17, at a sequence that offers the non-matching `podBOther` by a raw
add and by a raw update. -/
theorem stored_objects_match_witness :
    (runEvents setMatches klEmpty [RawEvent.add podA, RawEvent.add podBOther,
        RawEvent.update podA podBOther, RawEvent.update podBOther podB,
        RawEvent.delete podAOther]).labels = klEmpty.labels ∧
      ∀ x ∈ list (runEvents setMatches klEmpty [RawEvent.add podA, RawEvent.add podBOther,
          RawEvent.update podA podBOther, RawEvent.update podBOther podB,
          RawEvent.delete podAOther]),
        filterResource setMatches (runEvents setMatches klEmpty [RawEvent.add podA,
          RawEvent.add podBOther, RawEvent.update podA podBOther,
          RawEvent.update podBOther podB, RawEvent.delete podAOther]) x = true :=
  stored_objects_match setMatches klEmpty _ rfl

/-- C18: in a cache state whose `cnt` equals the number of entries, when the
name of `oldObj` is a key and the name of `newObj` is that same name or not a
key, `update(oldObj, newObj)` changes neither `cnt` nor the number of
entries, so `cnt` again equals the number of entries. -/
theorem update_keeps_count_invariant (kl : k8sLister) (oldObj newObj : Object)
    (h : kl.cnt = (SyncMap.size kl.m : Int))
    (hold : getResourceName kl oldObj ∈ kl.m)
    (hnew : getResourceName kl newObj = getResourceName kl oldObj ∨
      getResourceName kl newObj ∉ kl.m) :
    (update kl oldObj newObj).1.cnt = (SyncMap.size (update kl oldObj newObj).1.m : Int) ∧
      (update kl oldObj newObj).1.cnt = kl.cnt ∧
      SyncMap.size (update kl oldObj newObj).1.m = SyncMap.size kl.m := by
  have hk : updateKeepsSize kl oldObj newObj = true := by
    unfold updateKeepsSize
    rw [if_pos hold, decide_eq_true_eq]
    exact hnew
  exact ⟨update_keeps_cnt_size hk h, rfl, update_size_of_keeps hk⟩

/-- C18, at the cache holding `podA`, once replaced in place and once
renamed to `b`. -/
theorem update_keeps_count_invariant_witness :
    ((update klA podA podA1).1.cnt = (SyncMap.size (update klA podA podA1).1.m : Int) ∧
        (update klA podA podA1).1.cnt = klA.cnt ∧
        SyncMap.size (update klA podA podA1).1.m = SyncMap.size klA.m) ∧
      ((update klA podA podB).1.cnt = (SyncMap.size (update klA podA podB).1.m : Int) ∧
        (update klA podA podB).1.cnt = klA.cnt ∧
        SyncMap.size (update klA podA podB).1.m = SyncMap.size klA.m) :=
  ⟨update_keeps_count_invariant klA podA podA1 (by decide) (by decide) (by decide),
    update_keeps_count_invariant klA podA podB (by decide) (by decide) (by decide)⟩

/-- C20 (as stated, refuted): from the empty cache, `update(podA, podB)`
followed by `delete(podB)` leaves `cnt = -1` and passes `-1` to
`onCntChanged`; the raw update `(podA, podB)` (both matching) followed by the
raw delete of `podB` does the same through the handler. -/
theorem cnt_negative_after_update_delete :
    (run klEmpty [Op.update podA podB, Op.delete podB]).cnt = -1 ∧
      Call.onCntChanged (-1) ∈ runCalls klEmpty [Op.update podA podB, Op.delete podB] ∧
      (runEvents setMatches klEmpty
        [RawEvent.update podA podB, RawEvent.delete podB]).cnt = -1 ∧
      Call.onCntChanged (-1) ∈ eventCalls setMatches klEmpty
        [RawEvent.update podA podB, RawEvent.delete podB] :=
  ⟨by decide, by decide, by decide, by decide⟩

/-- C20 (amended): in every cache state reached from an empty cache by a
finite sequence of `add`, `delete` and `update` calls, each `update`
replacing one entry by one entry in the state it is made in, `cnt` is not
negative and every value passed to `onCntChanged` is at least 0; the same
holds for a sequence of raw events whose mutation calls are such a
sequence. -/
theorem cnt_nonneg_of_admissible (Matches : labels.Set → labels.Set → Bool)
    (kl : k8sLister) (ops : List Op) (evs : List RawEvent)
    (hm : kl.m = ∅) (hc : kl.cnt = 0) :
    (admissible kl ops = true →
        0 ≤ (run kl ops).cnt ∧ ∀ n : Int, Call.onCntChanged n ∈ runCalls kl ops → 0 ≤ n) ∧
      (admissible kl (eventOps Matches kl evs) = true →
        0 ≤ (runEvents Matches kl evs).cnt ∧
          ∀ n : Int, Call.onCntChanged n ∈ eventCalls Matches kl evs → 0 ≤ n) := by
  have h0 : kl.cnt = (SyncMap.size kl.m : Int) := by rw [hm, hc]; rfl
  have key : ∀ os : List Op, admissible kl os = true →
      0 ≤ (run kl os).cnt ∧ ∀ n : Int, Call.onCntChanged n ∈ runCalls kl os → 0 ≤ n := by
    intro os hadm
    refine ⟨?_, runCalls_cntChanged_nonneg os kl h0 hadm⟩
    rw [run_keeps_cnt_size os kl h0 hadm]
    exact Int.natCast_nonneg _
  refine ⟨key ops, ?_⟩
  intro hadm
  obtain ⟨hr, hcalls⟩ := runEvents_eq_run Matches evs kl
  rw [hr, hcalls]
  exact key _ hadm

/-- C20, at the call sequence add `a`, replace `a`, delete `a`, delete `a`
again, and at the same sequence delivered as raw events. -/
theorem cnt_nonneg_of_admissible_witness :
    (0 ≤ (run klEmpty [Op.add podA, Op.update podA podA1, Op.delete podA,
          Op.delete podA]).cnt ∧
        ∀ n : Int, Call.onCntChanged n ∈ runCalls klEmpty [Op.add podA,
          Op.update podA podA1, Op.delete podA, Op.delete podA] → 0 ≤ n) ∧
      (0 ≤ (runEvents setMatches klEmpty [RawEvent.add podA, RawEvent.update podA podA1,
          RawEvent.delete podA, RawEvent.delete podA]).cnt ∧
        ∀ n : Int, Call.onCntChanged n ∈ eventCalls setMatches klEmpty [RawEvent.add podA,
          RawEvent.update podA podA1, RawEvent.delete podA, RawEvent.delete podA] → 0 ≤ n) :=
  have h := cnt_nonneg_of_admissible setMatches klEmpty
    [Op.add podA, Op.update podA podA1, Op.delete podA, Op.delete podA]
    [RawEvent.add podA, RawEvent.update podA podA1, RawEvent.delete podA,
      RawEvent.delete podA] rfl rfl
  ⟨h.1 (by decide), h.2 (by decide)⟩

end k8s_lister

namespace qps_limiter

/-! ## One call of the limiter -/

theorem consumeWithCheck_topLimit (lim : qpsLimiter) (P : Nat) (t : Time) :
    (consumeWithCheck lim P t).1.qpsTopLimit = lim.qpsTopLimit := by
  unfold consumeWithCheck
  by_cases hP : P = 0 <;> simp [hP]

theorem consumeWithCheck_counter (lim : qpsLimiter) (P : Nat) (t : Time) (s2 : Int) :
    counterOf (consumeWithCheck lim P t).1 s2 =
      if s2 = t.Unix then (counterOf lim t.Unix + 1) % 2 ^ 32 else counterOf lim s2 := by
  unfold consumeWithCheck counterOf
  by_cases hs : s2 = t.Unix
  · subst hs
    by_cases hP : P = 0 <;> cases hl : AList.lookup t.Unix lim.qpsConsumed <;>
      simp [hP, hl, AList.lookup_insert]
  · by_cases hP : P = 0 <;> cases hl : AList.lookup t.Unix lim.qpsConsumed <;>
      simp [hP, hs, hl, AList.lookup_insert_ne]

theorem consumeWithCheck_result (lim : qpsLimiter) {P : Nat} (t : Time) (hP : P ≠ 0) :
    (consumeWithCheck lim P t).2 =
      Except.ok (decide ((counterOf lim t.Unix + 1) % 2 ^ 32 ≤ lim.qpsTopLimit / P)) := by
  unfold consumeWithCheck counterOf
  cases hl : AList.lookup t.Unix lim.qpsConsumed <;> simp [hP, hl, AList.lookup_insert]

/-- A call for a key that has a limiter, in a group with a non-zero pod
count. -/
theorem checkWithTime_of_limiter {g : QPSLimiterGroup}
    {m : AList (fun _ : String => qpsLimiter)} {lim : qpsLimiter} (key : String) (t : Time)
    (hP : g.podCnt ≠ 0) (hm : g.qpsLimiterMap = some m)
    (hl : AList.lookup key m = some lim) :
    checkWithTime (some g) key t =
      (some { g with
          qpsLimiterMap := some (AList.insert key (consumeWithCheck lim g.podCnt t).1 m) },
        Except.ok
          (decide ((counterOf lim t.Unix + 1) % 2 ^ 32 ≤ lim.qpsTopLimit / g.podCnt), none)) := by
  have hr := consumeWithCheck_result lim t hP
  have hP0 : ¬ g.podCnt ≤ 0 := by omega
  unfold checkWithTime
  simp only [hP0, if_false, hm, hl]
  generalize consumeWithCheck lim g.podCnt t = r at hr ⊢
  obtain ⟨lim1, res⟩ := r
  simp only at hr
  subst hr
  rfl

/-- A call in a group with pod count 0, or for a key without limiter,
changes nothing and returns an error. -/
theorem checkWithTime_of_inactive (q : Option QPSLimiterGroup) (key : String) (t : Time)
    (h : podCntOf q = 0 ∨ limiterOf q key = none) :
    (checkWithTime q key t).1 = q ∧ failed (checkWithTime q key t).2 = true := by
  cases q with
  | none => exact ⟨rfl, rfl⟩
  | some g =>
    by_cases hP : g.podCnt ≤ 0
    · simp [checkWithTime, hP, failed]
    · have hP1 : g.podCnt ≠ 0 := by omega
      have hl : limiterOf (some g) key = none := by
        rcases h with h | h
        · exact absurd h hP1
        · exact h
      unfold limiterOf at hl
      unfold checkWithTime
      cases hm : g.qpsLimiterMap with
      | none => simp [hP, hm, failed]
      | some m =>
        simp only [hm] at hl
        simp [hP, hm, hl, failed]

theorem checkWithTime_podCnt (q : Option QPSLimiterGroup) (key : String) (t : Time) :
    podCntOf (checkWithTime q key t).1 = podCntOf q := by
  by_cases h : podCntOf q = 0 ∨ limiterOf q key = none
  · rw [(checkWithTime_of_inactive q key t h).1]
  · push_neg at h
    obtain ⟨hP, hl⟩ := h
    cases q with
    | none => exact absurd rfl hP
    | some g =>
      obtain ⟨lim, hlim⟩ := Option.ne_none_iff_exists'.1 hl
      unfold limiterOf at hlim
      cases hm : g.qpsLimiterMap with
      | none => simp [hm] at hlim
      | some m =>
        simp only [hm] at hlim
        rw [checkWithTime_of_limiter key t hP hm hlim]
        rfl

/-- What a call does to the limiter of any key. -/
theorem checkWithTime_limiterOf (q : Option QPSLimiterGroup) (key : String) (t : Time)
    (key2 : String) :
    limiterOf (checkWithTime q key t).1 key2 =
      if key2 = key ∧ podCntOf q ≠ 0 then
        (limiterOf q key).map (fun lim => (consumeWithCheck lim (podCntOf q) t).1)
      else limiterOf q key2 := by
  by_cases h : podCntOf q = 0 ∨ limiterOf q key = none
  · rw [(checkWithTime_of_inactive q key t h).1]
    split
    · next hc =>
      rcases h with h | h
      · exact absurd h hc.2
      · rw [hc.1, h]; rfl
    · rfl
  · push_neg at h
    obtain ⟨hP, hl⟩ := h
    cases q with
    | none => exact absurd rfl hP
    | some g =>
      obtain ⟨lim, hlim⟩ := Option.ne_none_iff_exists'.1 hl
      have hlim0 := hlim
      unfold limiterOf at hlim
      cases hm : g.qpsLimiterMap with
      | none => simp [hm] at hlim
      | some m =>
        simp only [hm] at hlim
        rw [checkWithTime_of_limiter key t hP hm hlim]
        by_cases hk : key2 = key
        · subst hk
          simp only [limiterOf, AList.lookup_insert, true_and]
          rw [if_pos hP]
          simp only [hm, hlim, Option.map_some', podCntOf]
        · simp only [limiterOf, hk, false_and, if_false, hm, AList.lookup_insert_ne hk]

/-- What a call does to the counter of any key and second. -/
theorem checkWithTime_consumed (q : Option QPSLimiterGroup) (key : String) (t : Time)
    (key2 : String) (s2 : Int) :
    consumed (checkWithTime q key t).1 key2 s2 =
      if key2 = key ∧ s2 = t.Unix ∧ podCntOf q ≠ 0 ∧ (limiterOf q key).isSome = true then
        (consumed q key2 s2 + 1) % 2 ^ 32
      else consumed q key2 s2 := by
  unfold consumed
  rw [checkWithTime_limiterOf]
  by_cases hk : key2 = key
  · subst hk
    by_cases hP : podCntOf q = 0
    · simp [hP]
    · cases hl : limiterOf q key2 with
      | none => simp [hP]
      | some lim =>
        simp only [hP, ne_eq, not_false_eq_true, and_self, if_true, Option.map_some',
          consumeWithCheck_counter, true_and, and_true, Option.isSome_some]
        by_cases hs : s2 = t.Unix
        · subst hs; simp
        · simp [hs]
  · simp [hk]

theorem checkWithTime_topLimitOf (q : Option QPSLimiterGroup) (key : String) (t : Time)
    (key2 : String) :
    topLimitOf (checkWithTime q key t).1 key2 = topLimitOf q key2 := by
  unfold topLimitOf
  rw [checkWithTime_limiterOf]
  split
  · next hc =>
    rw [hc.1]
    cases limiterOf q key with
    | none => rfl
    | some lim => simp [consumeWithCheck_topLimit]
  · rfl

/-- The result of a call for a key with top limit `L`, in a group with
pod count `P ≥ 1`, when the counter of its second is `c`. -/
theorem checkWithTime_result {q : Option QPSLimiterGroup} {P L c : Nat} {key : String}
    {s : Int} (h : Tracks q P key L s c) (hP : 1 ≤ P) (t : Time) (ht : t.Unix = s) :
    (checkWithTime q key t).2 = Except.ok (decide ((c + 1) % 2 ^ 32 ≤ L / P), none) := by
  obtain ⟨h1, h2, h3⟩ := h
  cases q with
  | none => simp [topLimitOf, limiterOf] at h2
  | some g =>
    unfold topLimitOf at h2
    obtain ⟨lim, hlim, hL⟩ := Option.map_eq_some'.1 h2
    have hc : counterOf lim s = c := by
      simpa [consumed, hlim] using h3
    unfold limiterOf at hlim
    cases hm : g.qpsLimiterMap with
    | none => simp [hm] at hlim
    | some m =>
      simp only [hm] at hlim
      have hP0 : g.podCnt ≠ 0 := by
        have : g.podCnt = P := h1
        omega
      rw [checkWithTime_of_limiter key t hP0 hm hlim, ht, hc, hL]
      have : g.podCnt = P := h1
      rw [this]

theorem checkWithTime_tracks {q : Option QPSLimiterGroup} {P L c : Nat} {key : String}
    {s : Int} (h : Tracks q P key L s c) (hP : 1 ≤ P) (key2 : String) (t2 : Time) :
    Tracks (checkWithTime q key2 t2).1 P key L s
      (if key2 = key ∧ t2.Unix = s then (c + 1) % 2 ^ 32 else c) := by
  obtain ⟨h1, h2, h3⟩ := h
  refine ⟨(checkWithTime_podCnt q key2 t2).trans h1,
    (checkWithTime_topLimitOf q key2 t2 key).trans h2, ?_⟩
  rw [checkWithTime_consumed, h3]
  have hP0 : podCntOf q ≠ 0 := by omega
  by_cases hk : key2 = key
  · subst hk
    have hl : (limiterOf q key2).isSome = true := by
      cases hn : limiterOf q key2 with
      | none => simp [topLimitOf, hn] at h2
      | some lim => rfl
    by_cases hs : t2.Unix = s
    · simp [hs, hP0, hl]
    · have hs2 : ¬ s = t2.Unix := fun e => hs e.symm
      simp [hs, hs2]
  · have hk2 : ¬ key = key2 := fun e => hk e.symm
    simp [hk, hk2]

/-! ## Sequences of calls -/

theorem runChecks_append (a b : List (String × Time)) :
    ∀ q : Option QPSLimiterGroup, runChecks q (a ++ b) =
      ((runChecks (runChecks q a).1 b).1,
        (runChecks q a).2 ++ (runChecks (runChecks q a).1 b).2) := by
  induction a with
  | nil => intro q; rfl
  | cons c cs ih =>
    intro q
    show runChecks q (c :: (cs ++ b)) = _
    simp only [runChecks, ih, List.cons_append]

theorem hits_cons (key : String) (s : Int) (c : String × Time) (cs : List (String × Time)) :
    hits key s (c :: cs) = hits key s cs + (if c.1 = key ∧ c.2.Unix = s then 1 else 0) := by
  unfold hits
  rw [List.countP_cons]
  by_cases h : c.1 = key ∧ c.2.Unix = s <;> simp [h]

theorem hits_map_same (key : String) (s : Int) (ts : List Time)
    (hs : ∀ t ∈ ts, t.Unix = s) : hits key s (ts.map (fun t => (key, t))) = ts.length := by
  induction ts with
  | nil => rfl
  | cons t ts ih =>
    rw [List.map_cons, hits_cons, ih (fun x hx => hs x (List.mem_cons_of_mem _ hx))]
    have := hs t (List.mem_cons_self _ _)
    simp [this]

/-- After any sequence of calls the pod count and the top limit are as
before, and the counter of a key and second has advanced, modulo `2 ^ 32`, by
the number of calls made for that key in that second. -/
theorem runChecks_tracks {P L : Nat} {key : String} {s : Int} (hP : 1 ≤ P)
    (calls : List (String × Time)) :
    ∀ (q : Option QPSLimiterGroup) (c : Nat), Tracks q P key L s c → c < 2 ^ 32 →
      Tracks (runChecks q calls).1 P key L s ((c + hits key s calls) % 2 ^ 32) := by
  induction calls with
  | nil =>
    intro q c h hc
    have : (c + hits key s []) % 2 ^ 32 = c := by
      simp only [hits, List.countP_nil, Nat.add_zero]
      exact Nat.mod_eq_of_lt hc
    rw [this]; exact h
  | cons c0 cs ih =>
    intro q c h hc
    have hstep := checkWithTime_tracks h hP c0.1 c0.2
    have hlt : (if c0.1 = key ∧ c0.2.Unix = s then (c + 1) % 2 ^ 32 else c) < 2 ^ 32 := by
      split
      · exact Nat.mod_lt _ (by norm_num)
      · exact hc
    have h2 := ih _ _ hstep hlt
    have heq : ((if c0.1 = key ∧ c0.2.Unix = s then (c + 1) % 2 ^ 32 else c) +
        hits key s cs) % 2 ^ 32 = (c + hits key s (c0 :: cs)) % 2 ^ 32 := by
      rw [hits_cons]
      split
      · rw [Nat.mod_add_mod]
        congr 1
        omega
      · rfl
    rw [heq] at h2
    exact h2

/-- While the counter does not wrap, at most `L / P - c` of the calls made
for one key in one second return `true`. -/
theorem granted_count_le {P L : Nat} {key : String} {s : Int} (hP : 1 ≤ P)
    (ts : List Time) :
    ∀ (q : Option QPSLimiterGroup) (c : Nat), Tracks q P key L s c →
      c + ts.length < 2 ^ 32 → (∀ t ∈ ts, t.Unix = s) →
      (runChecks q (ts.map (fun t => (key, t)))).2.countP granted ≤ L / P - c := by
  induction ts with
  | nil => intro q c _ _ _; simp [runChecks]
  | cons t ts ih =>
    intro q c h hc hs
    have ht : t.Unix = s := hs t (List.mem_cons_self _ _)
    have hres := checkWithTime_result h hP t ht
    have hstep := checkWithTime_tracks h hP key t
    simp only [List.length_cons] at hc
    have hmod : (c + 1) % 2 ^ 32 = c + 1 := Nat.mod_eq_of_lt (by omega)
    rw [if_pos ⟨rfl, ht⟩, hmod] at hstep
    rw [hmod] at hres
    have hrest := ih _ (c + 1) hstep (by omega) (fun x hx => hs x (List.mem_cons_of_mem _ hx))
    simp only [List.map_cons, runChecks, List.countP_cons, hres]
    by_cases hle : c + 1 ≤ L / P
    · simp only [granted, hle, decide_True, if_true]
      omega
    · simp only [granted, hle, decide_False, Bool.false_eq_true, if_false]
      omega

theorem tracks_groupWithLimit (topLimit : Nat) (s : Int) :
    Tracks (groupWithLimit topLimit) 1 "k" topLimit s 0 := by
  exact ⟨rfl, rfl, rfl⟩

/-- A call returns a non-nil error exactly when the stored pod count is 0 or
the key has no limiter. -/
theorem checkWithTime_failed_iff (q : Option QPSLimiterGroup) (key : String) (t : Time) :
    failed (checkWithTime q key t).2 = true ↔
      podCntOf q = 0 ∨ (limiterOf q key).isSome = false := by
  constructor
  · intro hf
    by_contra hcon
    push_neg at hcon
    obtain ⟨hP, hl⟩ := hcon
    cases hlim : limiterOf q key with
    | none => simp [hlim] at hl
    | some lim =>
      have htr : Tracks q (podCntOf q) key lim.qpsTopLimit t.Unix (consumed q key t.Unix) :=
        ⟨rfl, by simp [topLimitOf, hlim], rfl⟩
      rw [checkWithTime_result htr (by omega) t rfl] at hf
      simp [failed] at hf
  · intro h
    refine (checkWithTime_of_inactive q key t ?_).2
    rcases h with h | h
    · exact Or.inl h
    · right
      cases hlim : limiterOf q key with
      | none => rfl
      | some lim => simp [hlim] at h

/-- With pod count 1 and top limit 0, the call that follows `2 ^ 32 - 1`
calls for the key in one second returns `true`: the counter wraps to 0. -/
theorem wraparound_results (ts : List Time) (hlen : ts.length = 4294967295)
    (hs : ∀ t ∈ ts, t.Unix = 1700000000) :
    (runChecks (groupWithLimit 0) ((ts ++ [t0]).map (fun t => ("k", t)))).2 =
      (runChecks (groupWithLimit 0) (ts.map (fun t => ("k", t)))).2 ++
        [Except.ok (true, none)] := by
  have htr := runChecks_tracks (le_refl 1) (ts.map (fun t => ("k", t))) (groupWithLimit 0) 0
    (tracks_groupWithLimit 0 1700000000) (by norm_num)
  rw [hits_map_same "k" 1700000000 ts hs, hlen] at htr
  have hres := checkWithTime_result htr (le_refl 1) t0 rfl
  have hval : decide (((0 + 4294967295) % 2 ^ 32 + 1) % 2 ^ 32 ≤ 0 / 1) = true := by
    norm_num
  rw [hval] at hres
  rw [List.map_append, runChecks_append]
  simp only [List.map_cons, List.map_nil, runChecks, hres]

/-! ## Claims -/

/-- C15 (as stated, refuted): with pod count 1 and top limit 0 for the key,
`2 ^ 32` calls in one Unix second wrap the `uint32` counter to 0, so the last
of them returns `true`: one call is granted although the limit is 0. -/
theorem granted_after_wraparound :
    podCntOf (groupWithLimit 0) = 1 ∧ topLimitOf (groupWithLimit 0) "k" = some 0 ∧
      (∀ t ∈ List.replicate (2 ^ 32) t0, t.Unix = 1700000000) ∧
      (runChecks (groupWithLimit 0)
        ((List.replicate (2 ^ 32) t0).map (fun t => ("k", t)))).2.getLast? =
          some (Except.ok (true, none)) ∧
      0 < (runChecks (groupWithLimit 0)
        ((List.replicate (2 ^ 32) t0).map (fun t => ("k", t)))).2.countP granted := by
  have h32 : (2 : Nat) ^ 32 = 4294967295 + 1 := by norm_num
  have hrep : List.replicate (2 ^ 32) t0 = List.replicate 4294967295 t0 ++ [t0] := by
    rw [h32]; exact List.replicate_succ' _ _
  have hall := wraparound_results (List.replicate 4294967295 t0)
    (List.length_replicate _ _) (fun t ht => by rw [List.eq_of_mem_replicate ht]; rfl)
  rw [← hrep] at hall
  refine ⟨rfl, rfl, ?_, ?_, ?_⟩
  · intro t ht
    rw [List.eq_of_mem_replicate ht]; rfl
  · rw [hall]; exact List.getLast?_concat _
  · have h1 : List.countP granted
        [(Except.ok (true, none) : Except String (Bool × Option String))] = 1 := rfl
    rw [hall, List.countP_append, h1]
    exact Nat.add_pos_right _ Nat.one_pos

/-- C15 (amended): with pod count 1 and top limit `L` for the key, among
fewer than `2 ^ 32` `checkWithTime` calls on that key, made from a zero
counter with timestamps in one Unix second, at most `L` return `true`; in
particular none does when `L = 0`. -/
theorem granted_le_topLimit (q : Option QPSLimiterGroup) (key : String) (L : Nat) (s : Int)
    (ts : List Time) (hP : podCntOf q = 1) (hL : topLimitOf q key = some L)
    (hfresh : consumed q key s = 0) (hs : ∀ t ∈ ts, t.Unix = s)
    (hlen : ts.length < 2 ^ 32) :
    (runChecks q (ts.map (fun t => (key, t)))).2.countP granted ≤ L ∧
      (L = 0 → ∀ r ∈ (runChecks q (ts.map (fun t => (key, t)))).2, granted r = false) := by
  have hcount := granted_count_le (le_refl 1) ts q 0 ⟨hP, hL, hfresh⟩ (by omega) hs
  rw [Nat.div_one, Nat.sub_zero] at hcount
  refine ⟨hcount, ?_⟩
  intro h0 r hr
  rw [h0, Nat.le_zero, List.countP_eq_zero] at hcount
  simpa using hcount r hr

/-- C15, at top limit 2 and four calls in one second: two are granted. -/
theorem granted_le_topLimit_witness :
    (runChecks (groupWithLimit 2)
        ([t0, t0Late, t0, t0].map (fun t => ("k", t)))).2.countP granted ≤ 2 ∧
      (2 = 0 → ∀ r ∈ (runChecks (groupWithLimit 2)
        ([t0, t0Late, t0, t0].map (fun t => ("k", t)))).2, granted r = false) :=
  granted_le_topLimit (groupWithLimit 2) "k" 2 1700000000 [t0, t0Late, t0, t0]
    (by decide) (by decide) (by decide) (by decide) (by decide)

/-- C16 (the code at the failing input): after `UpdatePodInfo(4294967296)`,
a positive pod count, and `SetTopLimit("k", 5)`, the stored pod count is
`uint32(4294967296) = 0` and `checkWithTime("k", t)` returns the error
"pod info is not complete"; after `UpdatePodInfo(1)` it returns no error. -/
theorem check_fails_after_positive_pod_count :
    podCntOf (build zeroGroup [Setup.UpdatePodInfo 4294967296, Setup.SetTopLimit "k" 5]) = 0 ∧
      (checkWithTime
        (build zeroGroup [Setup.UpdatePodInfo 4294967296, Setup.SetTopLimit "k" 5])
        "k" t0).2 = Except.ok (false, some errPodInfo) ∧
      (checkWithTime
        (build zeroGroup [Setup.UpdatePodInfo 1, Setup.SetTopLimit "k" 5])
        "k" t0).2 = Except.ok (true, none) :=
  ⟨by decide, rfl, rfl⟩

/-- C19: in a group with pod count `P ≥ 1` and top limit `L` for `key`,
starting from a zero counter for the second `s` and after any sequence `pre`
of `checkWithTime` calls (for any keys and seconds), the next call for `key`
in `s`, which is the `k`-th such call with `k = hits key s pre + 1`, returns
`true` with no error if and only if `k ≤ L / P`, whenever `k < 2 ^ 32`;
granted or rejected, it leaves the counter of `key` and `s` at `k`; and a call
for another key or another second leaves that counter as it is. -/
theorem kth_call_granted_iff (q : Option QPSLimiterGroup) (key : String) (L P : Nat)
    (s : Int) (pre : List (String × Time)) (t : Time)
    (hP : podCntOf q = P) (hP1 : 1 ≤ P) (hL : topLimitOf q key = some L)
    (hfresh : consumed q key s = 0) (ht : t.Unix = s)
    (hk : hits key s pre + 1 < 2 ^ 32) :
    (checkWithTime (runChecks q pre).1 key t).2 =
        Except.ok (decide (hits key s pre + 1 ≤ L / P), none) ∧
      consumed (checkWithTime (runChecks q pre).1 key t).1 key s = hits key s pre + 1 ∧
      ∀ (key2 : String) (t2 : Time), key2 ≠ key ∨ t2.Unix ≠ s →
        consumed (checkWithTime (runChecks q pre).1 key2 t2).1 key s =
          consumed (runChecks q pre).1 key s := by
  have htr := runChecks_tracks hP1 pre q 0 ⟨hP, hL, hfresh⟩ (by norm_num)
  have hmod : (0 + hits key s pre) % 2 ^ 32 = hits key s pre := by
    rw [Nat.zero_add]; exact Nat.mod_eq_of_lt (by omega)
  rw [hmod] at htr
  have hmod1 : (hits key s pre + 1) % 2 ^ 32 = hits key s pre + 1 := Nat.mod_eq_of_lt hk
  refine ⟨?_, ?_, ?_⟩
  · rw [checkWithTime_result htr hP1 t ht, hmod1]
  · have h := (checkWithTime_tracks htr hP1 key t).2.2
    rw [if_pos ⟨rfl, ht⟩, hmod1] at h
    exact h
  · intro key2 t2 hne
    have h := (checkWithTime_tracks htr hP1 key2 t2).2.2
    have hn : ¬ (key2 = key ∧ t2.Unix = s) := by
      rintro ⟨h1, h2⟩
      rcases hne with hne | hne
      · exact hne h1
      · exact hne h2
    rw [if_neg hn] at h
    rw [h, htr.2.2]

/-- C19, at top limit 5 and pod count 2: after two calls for the key in the
second (and calls for another key and another second), the third call is
rejected, since `3 > 5 / 2`, and the counter is 3. -/
theorem kth_call_granted_iff_witness :
    (checkWithTime (runChecks (SetTopLimit (UpdatePodInfo zeroGroup 2) "k" 5)
          [("k", t0), ("x", t0), ("k", t1), ("k", t0Late)]).1 "k" t0).2 =
        Except.ok (false, none) ∧
      consumed (checkWithTime (runChecks (SetTopLimit (UpdatePodInfo zeroGroup 2) "k" 5)
          [("k", t0), ("x", t0), ("k", t1), ("k", t0Late)]).1 "k" t0).1 "k" 1700000000 = 3 ∧
      ∀ (key2 : String) (t2 : Time), key2 ≠ "k" ∨ t2.Unix ≠ 1700000000 →
        consumed (checkWithTime (runChecks (SetTopLimit (UpdatePodInfo zeroGroup 2) "k" 5)
          [("k", t0), ("x", t0), ("k", t1), ("k", t0Late)]).1 key2 t2).1 "k" 1700000000 =
          consumed (runChecks (SetTopLimit (UpdatePodInfo zeroGroup 2) "k" 5)
            [("k", t0), ("x", t0), ("k", t1), ("k", t0Late)]).1 "k" 1700000000 :=
  kth_call_granted_iff (SetTopLimit (UpdatePodInfo zeroGroup 2) "k" 5) "k" 5 2 1700000000
    [("k", t0), ("x", t0), ("k", t1), ("k", t0Late)] t0
    (by decide) (by decide) (by decide) (by decide) (by decide) (by decide)

/-! ## The divisor of `consumeWithCheck` -/

/-- The division does panic when it is reached with pod count 0. -/
theorem consumeWithCheck_zero (lim : qpsLimiter) (t : Time) :
    (consumeWithCheck lim 0 t).2 = Except.error "integer divide by zero" := by
  simp [consumeWithCheck]

theorem divisorOf_eq_some {q : Option QPSLimiterGroup} {key : String} {P : Nat}
    (h : divisorOf q key = some P) :
    P = podCntOf q ∧ 1 ≤ P ∧ ∃ lim, limiterOf q key = some lim := by
  cases q with
  | none => simp [divisorOf] at h
  | some g =>
    unfold divisorOf at h
    by_cases hP : g.podCnt ≤ 0
    · simp [hP] at h
    · simp only [hP, if_false] at h
      cases hm : g.qpsLimiterMap with
      | none => simp [hm] at h
      | some m =>
        simp only [hm] at h
        cases hl : AList.lookup key m with
        | none => simp [hl] at h
        | some lim =>
          simp only [hl, Option.some.injEq] at h
          refine ⟨h.symm, by omega, lim, ?_⟩
          simp [limiterOf, hm, hl]

theorem divisorOf_eq_none {q : Option QPSLimiterGroup} {key : String}
    (h : divisorOf q key = none) : podCntOf q = 0 ∨ limiterOf q key = none := by
  cases q with
  | none => exact Or.inl rfl
  | some g =>
    unfold divisorOf at h
    by_cases hP : g.podCnt ≤ 0
    · left
      show g.podCnt = 0
      omega
    · right
      simp only [hP, if_false] at h
      cases hm : g.qpsLimiterMap with
      | none => simp [limiterOf, hm]
      | some m =>
        simp only [hm] at h
        cases hl : AList.lookup key m with
        | none => simp [limiterOf, hm, hl]
        | some lim => simp [hl] at h

/-- A call that reaches `consumeWithCheck` does so with a divisor `P ≥ 1`,
the limiter does not panic and the call returns its verdict with a nil
error. -/
theorem checkWithTime_of_divisor {q : Option QPSLimiterGroup} {key : String} {P : Nat}
    (t : Time) (h : divisorOf q key = some P) :
    1 ≤ P ∧ ∃ lim b, limiterOf q key = some lim ∧
      (consumeWithCheck lim P t).2 = Except.ok b ∧
      (checkWithTime q key t).2 = Except.ok (b, none) := by
  obtain ⟨hP, hP1, lim, hlim⟩ := divisorOf_eq_some h
  have htr : Tracks q P key lim.qpsTopLimit t.Unix (counterOf lim t.Unix) :=
    ⟨hP.symm, by simp [topLimitOf, hlim], by simp [consumed, hlim]⟩
  exact ⟨hP1, lim, _, hlim, consumeWithCheck_result lim t (by omega),
    checkWithTime_result htr hP1 t rfl⟩

/-- In every state whatever, `checkWithTime` returns and does not panic. -/
theorem checkWithTime_returns (q : Option QPSLimiterGroup) (key : String) (t : Time) :
    ∃ r, (checkWithTime q key t).2 = Except.ok r := by
  cases hd : divisorOf q key with
  | none =>
    have hf := (checkWithTime_of_inactive q key t (divisorOf_eq_none hd)).2
    cases hr : (checkWithTime q key t).2 with
    | ok r => exact ⟨r, rfl⟩
    | error msg => rw [hr] at hf; simp [failed] at hf
  | some P =>
    obtain ⟨_, _, b, _, _, hres⟩ := checkWithTime_of_divisor t hd
    exact ⟨(b, none), hres⟩

theorem runGroupCalls_returns (calls : List GroupCall) :
    ∀ q : Option QPSLimiterGroup, ∀ r ∈ (runGroupCalls q calls).2, ∃ v, r = Except.ok v := by
  induction calls with
  | nil => intro q r hr; simp [runGroupCalls] at hr
  | cons c cs ih =>
    intro q r hr
    cases c with
    | UpdatePodInfo n => exact ih _ r hr
    | SetTopLimit key l => exact ih _ r hr
    | checkWithTime key t =>
      simp only [runGroupCalls, List.mem_cons] at hr
      rcases hr with hr | hr
      · rw [hr]; exact checkWithTime_returns q key t
      · exact ih _ r hr

/-- C21: in every group state reached from the zero value by a finite
sequence of `UpdatePodInfo` (any `int`), `SetTopLimit` and `checkWithTime`
calls, a `checkWithTime` call reaches the division `qpsTopLimit / podCnt` of
`consumeWithCheck` only with `podCnt ≥ 1`, in which case the limiter returns
its verdict; otherwise the call returns an error and leaves the group as it
is; so the call never panics, and neither did any `checkWithTime` call of the
sequence. -/
theorem checkWithTime_never_divides_by_zero (calls : List GroupCall) (key : String)
    (t : Time) :
    (∀ P, divisorOf (runGroupCalls zeroGroup calls).1 key = some P →
        1 ≤ P ∧ ∃ lim b, limiterOf (runGroupCalls zeroGroup calls).1 key = some lim ∧
          (consumeWithCheck lim P t).2 = Except.ok b ∧
          (checkWithTime (runGroupCalls zeroGroup calls).1 key t).2 = Except.ok (b, none)) ∧
      (divisorOf (runGroupCalls zeroGroup calls).1 key = none →
        (checkWithTime (runGroupCalls zeroGroup calls).1 key t).1 =
            (runGroupCalls zeroGroup calls).1 ∧
          failed (checkWithTime (runGroupCalls zeroGroup calls).1 key t).2 = true) ∧
      (∃ r, (checkWithTime (runGroupCalls zeroGroup calls).1 key t).2 = Except.ok r) ∧
      ∀ r ∈ (runGroupCalls zeroGroup calls).2, ∃ v, r = Except.ok v := by
  refine ⟨fun P h => checkWithTime_of_divisor t h,
    fun h => checkWithTime_of_inactive _ key t (divisorOf_eq_none h),
    checkWithTime_returns _ key t, runGroupCalls_returns calls zeroGroup⟩

/-- C21, at a sequence in which `UpdatePodInfo(4294967296)` truncates the
pod count to 0 after a check was granted: the next check finds no divisor and
returns an error. -/
theorem checkWithTime_never_divides_by_zero_witness :
    podCntOf (runGroupCalls zeroGroup [GroupCall.UpdatePodInfo 1,
        GroupCall.SetTopLimit "k" 5, GroupCall.checkWithTime "k" t0,
        GroupCall.UpdatePodInfo 4294967296]).1 = 0 ∧
      divisorOf (runGroupCalls zeroGroup [GroupCall.UpdatePodInfo 1,
        GroupCall.SetTopLimit "k" 5, GroupCall.checkWithTime "k" t0,
        GroupCall.UpdatePodInfo 4294967296]).1 "k" = none ∧
      failed (checkWithTime (runGroupCalls zeroGroup [GroupCall.UpdatePodInfo 1,
        GroupCall.SetTopLimit "k" 5, GroupCall.checkWithTime "k" t0,
        GroupCall.UpdatePodInfo 4294967296]).1 "k" t0).2 = true ∧
      ∀ r ∈ (runGroupCalls zeroGroup [GroupCall.UpdatePodInfo 1,
        GroupCall.SetTopLimit "k" 5, GroupCall.checkWithTime "k" t0,
        GroupCall.UpdatePodInfo 4294967296]).2, ∃ v, r = Except.ok v :=
  have h := checkWithTime_never_divides_by_zero [GroupCall.UpdatePodInfo 1,
    GroupCall.SetTopLimit "k" 5, GroupCall.checkWithTime "k" t0,
    GroupCall.UpdatePodInfo 4294967296] "k" t0
  ⟨by decide, by decide, (h.2.1 (by decide)).2, h.2.2.2⟩

end qps_limiter
